import Mathlib

/-!
# MiniShell: execution engine, foreground wait and background sweep

A shallow embedding of `runner.c`, `wait.c`, `vars.c` and `signal_restore` of
`signal.c`.  The operating system is an explicit state: a descriptor table, a
script of injected system-call failures, the job table, the two special
parameters, the variable list and the environment, the lines written to stderr
and the list of calls performed so far.  What the kernel decides (the value
`fork` returns, the statuses `waitpid` delivers) is an input of the functions.
The same code is run by the shell and, after `fork` returns 0, by a child:
both are runs of `run_command_list`, told apart by the values `fork` returns.
-/

namespace MiniShell

/-! ## Constants of the C library (Linux values) -/

def ECHILD : Int := 10
def ENOTTY : Int := 25
def EBADF : Int := 9
def INT_MAX : Int := 2147483647

def WNOHANG : Nat := 1
/-- The flag `WSTOPPED` is the same bit as `WUNTRACED`. -/
def WSTOPPED : Nat := 2
def SIGCONT : Int := 18

def STDIN_FILENO : Int := 0
def STDOUT_FILENO : Int := 1

def O_RDONLY : Nat := 0
def O_WRONLY : Nat := 1
def O_RDWR : Nat := 2
def O_ACCMODE : Nat := 3
def O_CREAT : Nat := 64
def O_EXCL : Nat := 128
def O_TRUNC : Nat := 512
def O_APPEND : Nat := 1024

/-! ## The wait-status macros of `<sys/wait.h>`

On two's-complement `int`, `s & 0x7f` is `s % 128` and `(s & 0xff00) >> 8` is
`(s / 256) % 256` with floor division, which is what `/` and `%` are on `Int`. -/

/-- The macro `WTERMSIG(s)`: `s & 0x7f`. -/
def WTERMSIG (s : Int) : Int := s % 128

/-- The macro `WEXITSTATUS(s)`: `(s & 0xff00) >> 8`. -/
def WEXITSTATUS (s : Int) : Int := (s / 256) % 256

/-- The macro `WIFEXITED(s)`: `WTERMSIG(s) == 0`. -/
def WIFEXITED (s : Int) : Bool := WTERMSIG s == 0

/-- The macro `WIFSIGNALED(s)`: `((signed char) ((s & 0x7f) + 1) >> 1) > 0`. -/
def WIFSIGNALED (s : Int) : Bool :=
  let v := s % 128 + 1
  let sc : Int := if v ≥ 128 then v - 256 else v
  decide (sc / 2 > 0)

/-- The macro `WIFSTOPPED(s)`: `(s & 0xff) == 0x7f`. -/
def WIFSTOPPED (s : Int) : Bool := s % 256 == 127

/-! ## Data model -/

/-- An open file description, as far as the shell can tell them apart. -/
structure OpenFile where
  name : String
  flags : Nat
deriving DecidableEq, Repr

/-- A job: `struct job` of the job table, a job id and a process group. -/
structure Job where
  jid : Int
  pgid : Int
deriving DecidableEq, Repr

/-- A node of the variable list, `struct var` of `vars.c`; `value` is `none`
for a null pointer. -/
structure Var where
  name : String
  exported : Bool
  value : Option String
deriving DecidableEq, Repr

/-- The lines the shell writes to stderr, one constructor per format string. -/
inductive Msg where
  | started (jid pgid : Int)
  | stopped (jid : Int)
  | done (jid : Int)
  | terminated (jid : Int)
  | warning
deriving DecidableEq, Repr

/-- The text of a stderr line. -/
def Msg.render : Msg → String
  | .started jid pgid => "[" ++ toString jid ++ "] " ++ toString pgid ++ "\n"
  | .stopped jid => "[" ++ toString jid ++ "] Stopped\n"
  | .done jid => "[" ++ toString jid ++ "] Done\n"
  | .terminated jid => "[" ++ toString jid ++ "] Terminated\n"
  | .warning => "minishell: error\n"

/-- The system and library calls the embedded code performs. -/
inductive Sys where
  | close (fd : Int)
  | dup2 (src dst : Int)
  | dup (src : Int)
  | open_ (path : String) (flags : Nat)
  | pipe
  | fork
  | setpgid (pid pgid : Int)
  | kill (pgid sig : Int)
  | isatty (fd : Int)
  | tcsetpgrp (fd pgid : Int)
  | getpgid (pid : Int)
  | waitpid (pid : Int) (flags : Nat)
  | jobs_add (pgid : Int)
  | jobs_remove_gid (pgid : Int)
  | malloc
  | setenv (name value : String)
  | sigaction (sig : Int)
  | builtin
  | execvp
deriving DecidableEq, Repr

/-- The state of the shell process and of the kernel objects it owns. -/
structure Sh where
  /-- the descriptor table: what each open descriptor refers to -/
  fds : Int → Option OpenFile
  /-- descriptors are the numbers `0 ≤ fd < nofile` -/
  nofile : Int
  /-- failures the environment injects into the coming fallible calls -/
  faults : List Bool
  /-- the values the coming `fork` calls return -/
  pids : List Int
  /-- the variable `params.status` -/
  status : Int
  /-- the variable `params.bg_pid` -/
  bg_pid : Int
  /-- the job table -/
  jobs : List Job
  /-- the job id the next `jobs_add` hands out -/
  next_jid : Int
  /-- the list `var_list` of `vars.c`, its head the most recent insertion -/
  var_list : List Var
  /-- the environment of the process, as `getenv` sees it -/
  environ : List (String × String)
  /-- lines written to stderr, oldest first -/
  err_out : List Msg
  /-- calls performed, oldest first -/
  calls : List Sys

/-- Record a call. -/
def Sh.call (sh : Sh) (c : Sys) : Sh := { sh with calls := sh.calls ++ [c] }

/-- Write a line to stderr. -/
def Sh.print (sh : Sh) (m : Msg) : Sh := { sh with err_out := sh.err_out ++ [m] }

/-! ## The job table -/

/-- Modelled from the spec: `jobs_get_jid` of the absent `jobs.c`, the job id
registered for a process group, `-1` when there is none. -/
def jobs_get_jid (pgid : Int) (sh : Sh) : Int :=
  match sh.jobs.find? (fun j => j.pgid == pgid) with
  | some j => j.jid
  | none => -1

/-- Modelled from the spec: `jobs_remove_gid` of the absent `jobs.c`, which
drops the job of a process group; the entries after it move down. -/
def jobs_remove_gid (pgid : Int) (sh : Sh) : Sh :=
  { sh.call (.jobs_remove_gid pgid) with jobs := sh.jobs.filter (fun j => j.pgid != pgid) }

/-- Modelled from the spec: `jobs_add` of the absent `jobs.c`, which appends a
job for the group and hands out job ids in increasing order. -/
def jobs_add (pgid : Int) (sh : Sh) : Int × Sh :=
  (sh.next_jid,
   { sh.call (.jobs_add pgid) with
     jobs := sh.jobs ++ [{ jid := sh.next_jid, pgid := pgid }]
     next_jid := sh.next_jid + 1 })

/-! ## `wait.c`: foreground wait -/

/-- What the kernel answers during one call of `wait_on_fg_gid`. -/
structure FgEnv where
  /-- return value of `kill(pgid, SIGCONT)` -/
  kill : Int
  /-- return value of the first `isatty(STDIN_FILENO)` -/
  isatty_claim : Int
  /-- `errno` after the first `isatty` when it returned 0 -/
  errno_claim : Int
  /-- return value of `tcsetpgrp(STDIN_FILENO, pgid)` -/
  tcsetpgrp_claim : Int
  /-- statuses delivered by the successive successful `waitpid` calls -/
  waits : List Int
  /-- `errno` of the failing `waitpid` call that follows them -/
  wait_errno : Int
  /-- return value of the second `isatty(STDIN_FILENO)` -/
  isatty_return : Int
  /-- `errno` after the second `isatty` when it returned 0 -/
  errno_return : Int
  /-- return value of `getpgid(0)` -/
  getpgid : Int
  /-- return value of `tcsetpgrp(STDIN_FILENO, bspgid)` -/
  tcsetpgrp_return : Int

/-- The loop `for (;;)` of `wait_on_fg_gid`.  The boolean is `true` when the
loop is left through `goto err`, `false` when through `goto out`. -/
def fg_wait_loop (pgid : Int) (wait_errno : Int) : List Int → Int → Sh → Bool × Sh
  | [], last_status, sh =>
    let sh := sh.call (.waitpid (-pgid) WSTOPPED)
    if wait_errno = ECHILD then
      let sh :=
        if WIFEXITED last_status then { sh with status := WEXITSTATUS last_status }
        else if WIFSIGNALED last_status then { sh with status := 128 + WTERMSIG last_status }
        else sh
      (false, jobs_remove_gid pgid sh)
    else (true, sh)
  | status :: rest, _, sh =>
    let sh := sh.call (.waitpid (-pgid) WSTOPPED)
    if WIFSTOPPED status then (false, sh.print (.stopped (jobs_get_jid pgid sh)))
    else fg_wait_loop pgid wait_errno rest status sh

/-- The tail of `wait_on_fg_gid` from the label `out`: hand the terminal back
to the shell's own process group and return `retval`. -/
def fg_return_terminal (env : FgEnv) (retval : Int) (sh : Sh) : Int × Sh :=
  let sh := sh.call (.isatty STDIN_FILENO)
  if env.isatty_return ≠ 0 then
    let sh := sh.call (.getpgid 0)
    if env.getpgid = -1 then (-1, sh)
    else
      let sh := sh.call (.tcsetpgrp STDIN_FILENO env.getpgid)
      if env.tcsetpgrp_return = -1 then (-1, sh) else (retval, sh)
  else if env.errno_return = ENOTTY then (retval, sh)
  else (-1, sh)

/-- The part of `wait_on_fg_gid` from `int retval = 0;` to its end. -/
def fg_wait_and_return (env : FgEnv) (pgid : Int) (sh : Sh) : Int × Sh :=
  let r := fg_wait_loop pgid env.wait_errno env.waits 0 sh
  fg_return_terminal env (if r.1 then -1 else 0) r.2

/-- The function `wait_on_fg_gid` of `wait.c`. -/
def wait_on_fg_gid (env : FgEnv) (pgid : Int) (sh : Sh) : Int × Sh :=
  if pgid < 0 then (-1, sh)
  else
    let sh := sh.call (.kill pgid SIGCONT)
    if env.kill = -1 then (-1, sh)
    else
      let sh := sh.call (.isatty STDIN_FILENO)
      if env.isatty_claim ≠ 0 then
        let sh := sh.call (.tcsetpgrp STDIN_FILENO pgid)
        if env.tcsetpgrp_claim = -1 then (-1, sh) else fg_wait_and_return env pgid sh
      else if env.errno_claim = ENOTTY then fg_wait_and_return env pgid sh
      else (-1, sh)

/-! ## `wait.c`: background sweep -/

/-- How the polls of one process group end during a sweep: `waitpid` returns 0
(nothing changed) or fails with the given `errno`. -/
inductive PollEnd where
  | idle
  | failed (errno : Int)
deriving DecidableEq, Repr

/-- What the kernel answers to the polls of one process group in one sweep. -/
structure PollScript where
  /-- statuses delivered by the successive `waitpid` calls that return a pid -/
  statuses : List Int
  /-- the call that follows them -/
  last : PollEnd

/-- How the inner loop of `wait_on_bg_jobs` is left. -/
inductive PollResult where
  /-- `break` with the job table untouched -/
  | kept
  /-- `break` after `jobs_remove_gid` and the re-fetch of the job list -/
  | reaped
  /-- `return -1` -/
  | error
deriving DecidableEq, Repr

/-- The flags of the polls of `wait_on_bg_jobs`. -/
def POLL_FLAGS : Nat := WSTOPPED ||| WNOHANG

/-- The inner loop `for (;;)` of `wait_on_bg_jobs` for the job `(jid, pgid)`. -/
def bg_poll_loop (pgid jid : Int) (last : PollEnd) : List Int → Int → Sh → PollResult × Sh
  | [], last_status, sh =>
    let sh := sh.call (.waitpid (-pgid) POLL_FLAGS)
    match last with
    | .idle => (.kept, sh)
    | .failed errno =>
      if errno = ECHILD then
        let sh :=
          if WIFEXITED last_status then sh.print (.done jid)
          else if WIFSIGNALED last_status then sh.print (.terminated jid)
          else sh
        (.reaped, jobs_remove_gid pgid sh)
      else (.error, sh)
  | status :: rest, _, sh =>
    let sh := sh.call (.waitpid (-pgid) POLL_FLAGS)
    if WIFSTOPPED status then (.kept, sh.print (.stopped jid))
    else bg_poll_loop pgid jid last rest status sh

/-- The outer loop of `wait_on_bg_jobs` from index `i`, with the locals
`job_count` and `jobs`.  Every iteration uses one unit of `fuel`; `none` means
the fuel ran out before the loop ended. -/
def bg_sweep (poll : Int → PollScript) : Nat → Nat → Nat → List Job → Sh → Option (Int × Sh)
  | 0, i, job_count, _, sh => if i < job_count then none else some (0, sh)
  | fuel + 1, i, job_count, jobs, sh =>
    if i < job_count then
      match jobs.get? i with
      | none => none
      | some job =>
        let r := bg_poll_loop job.pgid job.jid (poll job.pgid).last (poll job.pgid).statuses 0 sh
        match r.1 with
        | .error => some (-1, r.2)
        | .kept => bg_sweep poll fuel (i + 1) job_count jobs r.2
        | .reaped => bg_sweep poll fuel (i + 1) r.2.jobs.length r.2.jobs r.2
    else some (0, sh)

/-- The function `wait_on_bg_jobs` of `wait.c`; the loop runs at most once per
job of the table. -/
def wait_on_bg_jobs (poll : Int → PollScript) (sh : Sh) : Option (Int × Sh) :=
  bg_sweep poll sh.jobs.length 0 sh.jobs.length sh.jobs sh

/-- The conditions under which `wait_on_fg_gid` gets to its wait loop: the
group id is not negative, `kill` succeeds, and the terminal is handed over or
standard input is not a terminal. -/
def reaches_wait_loop (env : FgEnv) (pgid : Int) : Prop :=
  0 ≤ pgid ∧ env.kill ≠ -1 ∧
    (if env.isatty_claim ≠ 0 then env.tcsetpgrp_claim ≠ -1 else env.errno_claim = ENOTTY)

instance (env : FgEnv) (pgid : Int) : Decidable (reaches_wait_loop env pgid) := by
  unfold reaches_wait_loop; exact inferInstance

/-! ## `runner.c`: commands and redirections -/

/-- Modelled from the spec: `enum io_operator` of the absent `parser.h`, the
seven redirection operators named in the switch of `get_io_flags`. -/
inductive IoOperator where
  /-- `<` -/
  | OP_LESS
  /-- `<&` -/
  | OP_LESSAND
  /-- `>` -/
  | OP_GREAT
  /-- `>&` -/
  | OP_GREATAND
  /-- `>>` -/
  | OP_DGREAT
  /-- `<>` -/
  | OP_LESSGREAT
  /-- `>|` -/
  | OP_CLOBBER
deriving DecidableEq, Repr

open IoOperator

/-- Modelled from the spec: `struct io_redir` of the absent `parser.h`. -/
structure IoRedir where
  io_op : IoOperator
  io_number : Int
  filename : String
deriving DecidableEq, Repr

/-- Modelled from the spec: `struct assignment` of the absent `parser.h`. -/
structure Assignment where
  name : String
  value : String
deriving DecidableEq, Repr

/-- Modelled from the spec: the control operator of a command in the absent
`parser.h`: `;` (foreground), `&` (background) or `|` (pipe-continuation). -/
inductive CtrlOp where
  | fg
  | bg
  | pl
deriving DecidableEq, Repr

/-- Modelled from the spec: `struct command` of the absent `parser.h`. -/
structure Command where
  ctrl_op : CtrlOp
  words : List String
  assignments : List Assignment
  io_redirs : List IoRedir
deriving DecidableEq, Repr

/-- A node of the overlay list, `struct builtin_redir` of `builtins.h`; the
list itself is a `List`, its head the most recent insertion. -/
structure BuiltinRedir where
  pseudofd : Int
  realfd : Int
deriving DecidableEq, Repr

/-- The function `get_io_flags` of `runner.c`. -/
def get_io_flags (io_op : IoOperator) : Nat :=
  match io_op with
  | OP_LESSAND | OP_LESS => O_RDONLY
  | OP_GREATAND | OP_GREAT => O_WRONLY ||| O_CREAT ||| O_EXCL
  | OP_DGREAT => O_WRONLY ||| O_CREAT ||| O_APPEND
  | OP_LESSGREAT => O_RDWR ||| O_CREAT
  | OP_CLOBBER => O_WRONLY ||| O_CREAT ||| O_TRUNC

/-! ### Descriptor system calls

Each fallible call takes the next entry of `faults`; `true` makes the call
fail for a reason outside the descriptor table (`EINTR`, `EIO`, `ENOENT`,
`EEXIST`, `ENOMEM`, ...).  A call also fails when the table itself says so. -/

/-- Take the next injected failure. -/
def Sh.fault (sh : Sh) : Bool × Sh := (sh.faults.headD false, { sh with faults := sh.faults.tail })

/-- The lowest descriptor that is not open, if the table is not full. -/
def lowest_free (sh : Sh) : Option Int :=
  ((List.range sh.nofile.toNat).find? (fun k => (sh.fds (k : Int)).isNone)).map (fun k => (k : Int))

/-- The call `close(fd)`.  An open descriptor is released also when the call
reports an error, as Linux does. -/
def sys_close (fd : Int) (sh : Sh) : Int × Sh :=
  let f := (sh.call (.close fd)).fault
  match f.2.fds fd with
  | none => (-1, f.2)
  | some _ =>
    (if f.1 then -1 else 0, { f.2 with fds := Function.update f.2.fds fd none })

/-- The call `dup2(src, dst)`. -/
def sys_dup2 (src dst : Int) (sh : Sh) : Int × Sh :=
  let f := (sh.call (.dup2 src dst)).fault
  if f.1 then (-1, f.2)
  else
    match f.2.fds src with
    | none => (-1, f.2)
    | some file =>
      if dst < 0 ∨ f.2.nofile ≤ dst then (-1, f.2)
      else (dst, { f.2 with fds := Function.update f.2.fds dst (some file) })

/-- The call `dup(src)`. -/
def sys_dup (src : Int) (sh : Sh) : Int × Sh :=
  let f := (sh.call (.dup src)).fault
  if f.1 then (-1, f.2)
  else
    match f.2.fds src, lowest_free f.2 with
    | some file, some fd => (fd, { f.2 with fds := Function.update f.2.fds fd (some file) })
    | _, _ => (-1, f.2)

/-- The call `open(path, flags, 0777)`.  The file system is not modelled: its
verdict is the injected failure. -/
def sys_open (path : String) (flags : Nat) (sh : Sh) : Int × Sh :=
  let f := (sh.call (.open_ path flags)).fault
  if f.1 then (-1, f.2)
  else
    match lowest_free f.2 with
    | some fd =>
      (fd, { f.2 with fds := Function.update f.2.fds fd (some { name := path, flags := flags }) })
    | none => (-1, f.2)

/-- The call `malloc`: `true` when it returns a non-null pointer. -/
def sys_malloc (sh : Sh) : Bool × Sh :=
  let f := (sh.call .malloc).fault
  (!f.1, f.2)

/-- The function `move_fd` of `runner.c`. -/
def move_fd (src dst : Int) (sh : Sh) : Int × Sh :=
  if src = dst then (dst, sh)
  else
    let d := sys_dup2 src dst sh
    if d.1 = -1 then (-1, d.2)
    else
      let c := sys_close src d.2
      if c.1 = -1 then (-1, c.2) else (dst, c.2)

/-! ### `strtol` -/

def LONG_MAX : Int := 9223372036854775807
def LONG_MIN : Int := -9223372036854775808

/-- The predicate `isspace` in the C locale. -/
def isspace (c : Char) : Bool :=
  c == ' ' || c == '\t' || c == '\n' || c == '\x0b' || c == '\x0c' || c == '\r'

/-- The value of a run of decimal digits. -/
def digits_value (ds : List Char) : Int :=
  ds.foldl (fun acc c => acc * 10 + ((c.toNat - '0'.toNat : Nat) : Int)) 0

/-- The call `strtol(s, &end, 10)`: the value, and whether `*end` is the
terminating NUL.  White space and one sign may precede the digits; without a
digit nothing is converted and `end` is `s`. -/
def strtol (s : String) : Int × Bool :=
  let body := s.toList.dropWhile isspace
  let neg := body.head? == some '-'
  let unsigned := if body.head? == some '-' ∨ body.head? == some '+' then body.tail else body
  let ds := unsigned.takeWhile Char.isDigit
  let rest := unsigned.dropWhile Char.isDigit
  if ds.isEmpty then (0, s.toList.isEmpty)
  else
    let v := if neg then - digits_value ds else digits_value ds
    (max LONG_MIN (min LONG_MAX v), rest.isEmpty)

/-- The conversion of a `long` to `int`. -/
def to_int (x : Int) : Int := (x + 2147483648) % 4294967296 - 2147483648

/-- The test `*(r->filename) && !*end && src <= INT_MAX` of the two redirection
functions: the source descriptor when the file name is a number. -/
def numeric_source (filename : String) : Option Int :=
  let p := strtol filename
  if filename ≠ "" ∧ p.2 = true ∧ p.1 ≤ INT_MAX then some p.1 else none

/-! ### Redirections of a forked command -/

/-- The statements from the label `file_open` of `do_io_redirects`; `true`
when they jump to `err`. -/
def io_file_open (r : IoRedir) (sh : Sh) : Bool × Sh :=
  let o := sys_open r.filename (get_io_flags r.io_op) sh
  if o.1 = -1 then (true, o.2)
  else
    let m := move_fd o.1 r.io_number o.2
    (decide (m.1 = -1), m.2)

/-- One iteration of the loop of `do_io_redirects`; `true` when it jumps to
`err`. -/
def io_redirect (r : IoRedir) (sh : Sh) : Bool × Sh :=
  if r.io_op = OP_GREATAND ∨ r.io_op = OP_LESSAND then
    if r.filename = "-" then
      let c := sys_close r.io_number sh
      (decide (c.1 = -1), c.2)
    else
      match numeric_source r.filename with
      | some src =>
        let d := sys_dup2 (to_int src) r.io_number sh
        (decide (d.1 = -1), d.2)
      | none => io_file_open r sh
  else io_file_open r sh

/-- The loop of `do_io_redirects` with its local `status`. -/
def io_redirects_loop : List IoRedir → Int → Sh → Int × Sh
  | [], status, sh => (status, sh)
  | r :: rs, status, sh =>
    let e := io_redirect r sh
    io_redirects_loop rs (if e.1 then -1 else status) e.2

/-- The function `do_io_redirects` of `runner.c`. -/
def do_io_redirects (cmd : Command) (sh : Sh) : Int × Sh :=
  io_redirects_loop cmd.io_redirs 0 sh

/-! ### Redirections of a builtin: the overlay -/

/-- The loop of the `-` branch of `do_builtin_io_redirects`: at the first node
whose `pseudofd` is `n`, close its `realfd` and store `-1` in its `pseudofd`;
`none` when no node matches. -/
def overlay_close (n : Int) : List BuiltinRedir → Sh → Option (List BuiltinRedir × Sh)
  | [], _ => none
  | rec :: rest, sh =>
    if rec.pseudofd = n then
      some ({ rec with pseudofd := -1 } :: rest, (sys_close rec.realfd sh).2)
    else
      match overlay_close n rest sh with
      | some r => some (rec :: r.1, r.2)
      | none => none

/-- The first loop of the numeric branch of `do_builtin_io_redirects`: `none`
when a node's `realfd` is the source (`errno = EBADF; goto err`), else the
source after each node whose `pseudofd` equals it replaced it by its `realfd`. -/
def resolve_src : List BuiltinRedir → Int → Option Int
  | [], src => some src
  | rec :: rest, src =>
    if rec.realfd = src then none
    else resolve_src rest (if rec.pseudofd = src then rec.realfd else src)

/-- The first node of the list whose `pseudofd` is `n`. -/
def find_rec (n : Int) (redir_list : List BuiltinRedir) : Option BuiltinRedir :=
  redir_list.find? (fun rec => rec.pseudofd == n)

/-- The result of one iteration of the loop of `do_builtin_io_redirects`. -/
structure OverlayStep where
  /-- the iteration jumped to `err` -/
  err : Bool
  redir_list : List BuiltinRedir
  sh : Sh

/-- The statements from the label `file_open` of `do_builtin_io_redirects`. -/
def overlay_file_open (r : IoRedir) (redir_list : List BuiltinRedir) (sh : Sh) : OverlayStep :=
  let o := sys_open r.filename (get_io_flags r.io_op) sh
  if o.1 < 0 then ⟨true, redir_list, o.2⟩
  else
    match find_rec r.io_number redir_list with
    | some rec =>
      let m := move_fd o.1 rec.realfd o.2
      ⟨decide (m.1 < 0), redir_list, m.2⟩
    | none =>
      let a := sys_malloc o.2
      if a.1 then ⟨false, { pseudofd := r.io_number, realfd := o.1 } :: redir_list, a.2⟩
      else ⟨true, redir_list, a.2⟩

/-- One iteration of the loop of `do_builtin_io_redirects`. -/
def overlay_redirect (r : IoRedir) (redir_list : List BuiltinRedir) (sh : Sh) : OverlayStep :=
  if r.io_op = OP_GREATAND ∨ r.io_op = OP_LESSAND then
    if r.filename = "-" then
      match overlay_close r.io_number redir_list sh with
      | some c => ⟨false, c.1, c.2⟩
      | none =>
        let a := sys_malloc sh
        if a.1 then ⟨false, { pseudofd := r.io_number, realfd := -1 } :: redir_list, a.2⟩
        else ⟨true, redir_list, a.2⟩
    else
      match numeric_source r.filename with
      | some src0 =>
        match resolve_src redir_list src0 with
        | none => ⟨true, redir_list, sh⟩
        | some src =>
          match find_rec r.io_number redir_list with
          | some rec =>
            let d := sys_dup2 (to_int src) rec.realfd sh
            ⟨decide (d.1 < 0), redir_list, d.2⟩
          | none =>
            let a := sys_malloc sh
            if a.1 then
              let d := sys_dup (to_int src) a.2
              ⟨false, { pseudofd := r.io_number, realfd := d.1 } :: redir_list, d.2⟩
            else ⟨true, redir_list, a.2⟩
      | none => overlay_file_open r redir_list sh
  else overlay_file_open r redir_list sh

/-- The loop of `do_builtin_io_redirects` with its local `status`. -/
def overlay_loop : List IoRedir → Int → List BuiltinRedir → Sh → Int × List BuiltinRedir × Sh
  | [], status, redir_list, sh => (status, redir_list, sh)
  | r :: rs, status, redir_list, sh =>
    let e := overlay_redirect r redir_list sh
    overlay_loop rs (if e.err then -1 else status) e.redir_list e.sh

/-- The function `do_builtin_io_redirects` of `runner.c`: the status, the list
`*redir_list` and the state it leaves. -/
def do_builtin_io_redirects (cmd : Command) (redir_list : List BuiltinRedir) (sh : Sh) :
    Int × List BuiltinRedir × Sh :=
  overlay_loop cmd.io_redirs 0 redir_list sh

/-- The loop `while (redir_list)` of `run_command_list` that closes every
`realfd` and frees the nodes. -/
def release_redirs : List BuiltinRedir → Sh → Sh
  | [], sh => sh
  | rec :: rest, sh => release_redirs rest (sys_close rec.realfd sh).2

/-! ## `vars.c` -/

/-- The predicate `isalpha` in the C locale. -/
def isalpha (c : Char) : Bool := c.isAlpha

/-- The predicate `isalnum` in the C locale. -/
def isalnum (c : Char) : Bool := c.isAlphanum

/-- The function `is_valid_varname` of `vars.c`. -/
def is_valid_varname (name : String) : Bool :=
  match name.toList with
  | [] => false
  | c :: cs => (isalpha c || c == '_') && cs.all (fun d => isalnum d || d == '_')

/-- The call `getenv(name)`. -/
def getenv (name : String) (sh : Sh) : Option String :=
  (sh.environ.find? (fun e => e.1 == name)).map (fun e => e.2)

/-- The call `setenv(name, value, 1)`. -/
def sys_setenv (name value : String) (sh : Sh) : Int × Sh :=
  let f := (sh.call (.setenv name value)).fault
  if f.1 then (-1, f.2)
  else (0, { f.2 with environ := (name, value) :: f.2.environ.filter (fun e => e.1 != name) })

/-- The function `find_var` of `vars.c`. -/
def find_var (name : String) (sh : Sh) : Option Var :=
  sh.var_list.find? (fun v => v.name == name)

/-- Store `f v` in the first node `v` of the list named `name`. -/
def update_var (name : String) (f : Var → Var) : List Var → List Var
  | [] => []
  | v :: vs => if v.name = name then f v :: vs else v :: update_var name f vs

/-- The function `new_var` of `vars.c`. -/
def new_var (name : String) (sh : Sh) : Option Var × Sh :=
  let a := sys_malloc sh
  if a.1 then
    let v : Var := { name := name, exported := (getenv name a.2).isSome, value := none }
    (some v, { a.2 with var_list := v :: a.2.var_list })
  else (none, a.2)

/-- The function `ensure_var` of `vars.c`. -/
def ensure_var (name : String) (sh : Sh) : Option Var × Sh :=
  match find_var name sh with
  | some v => (some v, sh)
  | none => new_var name sh

/-- The function `vars_set` of `vars.c`, for non-null arguments. -/
def vars_set (name value : String) (sh : Sh) : Int × Sh :=
  if !is_valid_varname name then (-1, sh)
  else
    match ensure_var name sh with
    | (none, sh) => (-1, sh)
    | (some v, sh) =>
      if v.exported then sys_setenv name value sh
      else
        let a := sys_malloc sh
        if a.1 then
          (0, { a.2 with var_list := update_var name (fun u => { u with value := some value }) a.2.var_list })
        else (-1, a.2)

/-- The function `vars_get` of `vars.c`, for a non-null argument. -/
def vars_get (name : String) (sh : Sh) : Option String :=
  if !is_valid_varname name then none
  else
    match find_var name sh with
    | some v => if !v.exported then v.value else getenv name sh
    | none => getenv name sh

/-- The function `vars_export` of `vars.c`, for a non-null argument. -/
def vars_export (name : String) (sh : Sh) : Int × Sh :=
  if !is_valid_varname name then (-1, sh)
  else
    match ensure_var name sh with
    | (none, sh) => (-1, sh)
    | (some v, sh) =>
      let sh := { sh with var_list := update_var name (fun u => { u with exported := true }) sh.var_list }
      match v.value with
      | some value =>
        let e := sys_setenv v.name value sh
        if e.1 < 0 then (-1, e.2) else (0, e.2)
      | none => (0, sh)

/-- The function `do_variable_assignment` of `runner.c`. -/
def do_variable_assignment : List Assignment → Bool → Sh → Int × Sh
  | [], _, sh => (0, sh)
  | a :: rest, export_all, sh =>
    let s := vars_set a.name a.value sh
    if s.1 ≠ 0 then (-1, s.2)
    else if export_all then
      let e := vars_export a.name s.2
      if e.1 ≠ 0 then (-1, e.2) else do_variable_assignment rest export_all e.2
    else do_variable_assignment rest export_all s.2

/-! ## `runner.c`: the command loop -/

/-- A builtin, `builtin_fn` of `builtins.h`: it gets the command and the
overlay list, works on the state of the shell and returns its result. -/
abbrev BuiltinFn := Command → List BuiltinRedir → Sh → Int × Sh

/-- What `run_command_list` takes from the code outside `runner.c` and from the
kernel. -/
structure World where
  /-- the function `get_builtin` of the absent `builtins.c` -/
  get_builtin : Command → Option BuiltinFn
  /-- the function `expand` of the absent `expand.c`, on one word -/
  expand : Sh → String → String
  /-- what the kernel answers while `wait_on_fg_gid` waits for a group -/
  fg_env : Int → FgEnv

/-- The locals of `run_command_list` that live across iterations. -/
structure LoopState where
  pipeline_fds : Int × Int
  pipeline_pgid : Int
  pipeline_jid : Int

/-- How one iteration of the loop of `run_command_list` ends. -/
inductive Step where
  /-- the loop goes on to the next command -/
  | next (ls : LoopState) (sh : Sh)
  /-- the function returns `ret` -/
  | returned (ret : Int) (sh : Sh)
  /-- the process ends through `err` or `exit` with this code -/
  | exited (code : Int) (sh : Sh)
  /-- `execvp` replaced the process image -/
  | execed (argv : List String) (sh : Sh)
  /-- an `assert` failed -/
  | aborted (sh : Sh)

/-- The state in which a step ends. -/
def Step.sh : Step → Sh
  | .next _ sh => sh
  | .returned _ sh => sh
  | .exited _ sh => sh
  | .execed _ sh => sh
  | .aborted sh => sh

/-- The function `expand_command_words` of `runner.c`. -/
def expand_command_words (w : World) (cmd : Command) (sh : Sh) : Command :=
  { cmd with
    words := cmd.words.map (w.expand sh)
    assignments := cmd.assignments.map (fun a => { a with value := w.expand sh a.value })
    io_redirs := cmd.io_redirs.map (fun r => { r with filename := w.expand sh r.filename }) }

/-- The call `pipe(pipeline_fds)`: the read end and the write end. -/
def sys_pipe (sh : Sh) : Option (Int × Int) × Sh :=
  let f := (sh.call .pipe).fault
  if f.1 then (none, f.2)
  else
    match lowest_free f.2 with
    | none => (none, f.2)
    | some r =>
      let sh1 := { f.2 with fds := Function.update f.2.fds r (some { name := "pipe", flags := O_RDONLY }) }
      match lowest_free sh1 with
      | none => (none, f.2)
      | some wr =>
        (some (r, wr),
         { sh1 with fds := Function.update sh1.fds wr (some { name := "pipe", flags := O_WRONLY }) })

/-- The call `fork()`: the kernel's answer is the next entry of `pids`, `-1`
when there is none. -/
def sys_fork (sh : Sh) : Int × Sh :=
  let sh := sh.call .fork
  match sh.pids with
  | [] => (-1, sh)
  | p :: ps => (p, { sh with pids := ps })

/-- The call `setpgid(pid, pgid)`. -/
def sys_setpgid (pid pgid : Int) (sh : Sh) : Int × Sh :=
  let f := (sh.call (.setpgid pid pgid)).fault
  (if f.1 then -1 else 0, f.2)

/-- The call `sigaction(sig, ...)`; the dispositions are not modelled. -/
def sys_sigaction (sig : Int) (sh : Sh) : Int × Sh :=
  let f := (sh.call (.sigaction sig)).fault
  (if f.1 then -1 else 0, f.2)

def SIGINT : Int := 2
def SIGTSTP : Int := 20
def SIGTTOU : Int := 22

/-- The function `signal_restore` of `signal.c`. -/
def signal_restore (sh : Sh) : Int × Sh :=
  let a := sys_sigaction SIGTSTP sh
  if a.1 ≠ 0 then (-1, a.2)
  else
    let b := sys_sigaction SIGINT a.2
    if b.1 ≠ 0 then (-1, b.2)
    else
      let c := sys_sigaction SIGTTOU b.2
      if c.1 ≠ 0 then (-1, c.2) else (0, c.2)

/-- The call `builtin(cmd, redir_list)`.  The builtin works on the state of the
shell; the record of calls and the scripts of the kernel are out of its reach. -/
def invoke_builtin (b : BuiltinFn) (cmd : Command) (redir_list : List BuiltinRedir) (sh : Sh) :
    Int × Sh :=
  let r := b cmd redir_list sh
  (r.1, { r.2 with calls := sh.calls ++ [Sys.builtin], faults := sh.faults, pids := sh.pids })

/-- Whether `run_command_list` calls `fork` for a command:
`builtin == NULL || !is_fg`. -/
def needs_fork (builtin : Option BuiltinFn) (ctrl_op : CtrlOp) : Bool :=
  builtin.isNone || !(ctrl_op == .fg)

/-- The statement `if (override >= 0)` that allocates a node for a pipe end
and pushes it on the overlay list; `none` when `malloc` fails. -/
def push_override (pseudofd override : Int) (redir_list : List BuiltinRedir) (sh : Sh) :
    Option (List BuiltinRedir) × Sh :=
  if override ≥ 0 then
    let a := sys_malloc sh
    if a.1 then (some ({ pseudofd := pseudofd, realfd := override } :: redir_list), a.2)
    else (none, a.2)
  else (some redir_list, sh)

/-- The branch `if (builtin)` of `run_command_list`, run by the shell itself
for a foreground builtin and by the forked child otherwise. -/
def run_builtin (b : BuiltinFn) (cmd : Command) (ls : LoopState)
    (stdin_override stdout_override : Int) (sh : Sh) : Step :=
  match push_override STDIN_FILENO stdin_override [] sh with
  | (none, sh) => .returned (-1) sh
  | (some l0, sh) =>
    match push_override STDOUT_FILENO stdout_override l0 sh with
    | (none, sh) => .returned (-1) sh
    | (some l1, sh) =>
      let o := do_builtin_io_redirects cmd l1 sh
      let a := do_variable_assignment cmd.assignments false o.2.2
      let r := invoke_builtin b cmd o.2.1 a.2
      let sh := release_redirs o.2.1 r.2
      let sh := { sh with status := if r.1 ≠ 0 then 127 else 0 }
      if cmd.ctrl_op ≠ .fg then .exited sh.status sh
      else .next ls sh

/-- The forked child of an external command from `do_io_redirects(cmd)` to
`execvp`. -/
def exec_command (cmd : Command) (sh : Sh) : Step :=
  let r := do_io_redirects cmd sh
  if r.1 < 0 then .exited 1 r.2
  else
    let a := do_variable_assignment cmd.assignments true r.2
    if a.1 < 0 then .exited 1 a.2
    else
      let g := signal_restore a.2
      if g.1 < 0 then .exited 1 g.2
      else
        let f := (g.2.call .execvp).fault
        if f.1 then .exited 127 f.2 else .execed cmd.words f.2

/-- The statement `if (override >= 0) { if (move_fd(override, fd) == -1) ... }`
of the forked child: the value of `move_fd`, or 0 when there is no override. -/
def move_override (override fd : Int) (sh : Sh) : Int × Sh :=
  if override ≥ 0 then move_fd override fd sh else (0, sh)

/-- The branch `else` of `if (builtin)`: the forked child of an external
command. -/
def run_external (cmd : Command) (stdin_override stdout_override : Int) (sh : Sh) : Step :=
  let m0 := move_override stdin_override STDIN_FILENO sh
  if m0.1 = -1 then .exited 1 m0.2
  else
    let m1 := move_override stdout_override STDOUT_FILENO m0.2
    if m1.1 = -1 then .exited 1 m1.2
    else exec_command cmd m1.2

/-- The statement `if (override >= 0) close(override);` of the parent. -/
def close_override (override : Int) (sh : Sh) : Sh :=
  if override ≥ 0 then (sys_close override sh).2 else sh

/-- The statement `if (pipeline_pgid == 0) { ... }` of the parent: the first
child of a pipeline gives the group its id and a job is registered; `none`
when `jobs_add` fails. -/
def start_pipeline (ls : LoopState) (child_pid : Int) (sh : Sh) : Option LoopState × Sh :=
  if ls.pipeline_pgid = 0 then
    let a := jobs_add child_pid sh
    if a.1 < 0 then (none, a.2)
    else (some { ls with pipeline_pgid := child_pid, pipeline_jid := a.1 }, a.2)
  else (some ls, sh)

/-- The end of an iteration in the parent, from `if (is_fg)`. -/
def await_or_detach (w : World) (cmd : Command) (ls : LoopState) (child_pid : Int) (sh : Sh) :
    Step :=
  if cmd.ctrl_op = .fg then
    let r := wait_on_fg_gid (w.fg_env ls.pipeline_pgid) ls.pipeline_pgid sh
    if r.1 < 0 then .returned (-1) { r.2.print .warning with status := 127 }
    else .next { ls with pipeline_pgid := 0 } r.2
  else
    let sh := { sh with bg_pid := child_pid }
    let sh := if cmd.ctrl_op = .bg then sh.print (.started ls.pipeline_jid ls.pipeline_pgid) else sh
    let sh := { sh with status := 0 }
    .next (if cmd.ctrl_op ≠ .pl then { ls with pipeline_pgid := 0 } else ls) sh

/-- The rest of an iteration of `run_command_list` in the parent, from
`assert(child_pid > 0)`.  The second assertion, that the first child of a
pipeline leads its own group, is the kernel's doing after `setpgid(pid, 0)`. -/
def run_parent (w : World) (cmd : Command) (ls : LoopState) (child_pid : Int)
    (stdin_override stdout_override : Int) (sh : Sh) : Step :=
  if ¬ (child_pid > 0) then .aborted sh
  else
    let sh := close_override stdout_override sh
    let sh := close_override stdin_override sh
    let g := sys_setpgid child_pid ls.pipeline_pgid sh
    if g.1 < 0 then .returned (-1) g.2
    else
      match start_pipeline ls child_pid g.2 with
      | (none, sh) => .returned (-1) sh
      | (some ls, sh) => await_or_detach w cmd ls child_pid sh

/-- The statement `if (is_pl) { pipe(pipeline_fds) } else { ... = -1 }`: the new
value of `pipeline_fds`, `none` when `pipe` fails. -/
def open_pipe (ctrl_op : CtrlOp) (sh : Sh) : Option (Int × Int) × Sh :=
  if ctrl_op = .pl then sys_pipe sh else (some (-1, -1), sh)

/-- The statement `if (builtin == NULL || !is_fg) child_pid = fork()`: the value
of `child_pid`. -/
def fork_if_needed (builtin : Option BuiltinFn) (ctrl_op : CtrlOp) (sh : Sh) : Int × Sh :=
  if needs_fork builtin ctrl_op then sys_fork sh else (0, sh)

/-- One iteration of the loop of `run_command_list`, after
`expand_command_words(cmd)`. -/
def run_expanded (w : World) (ls : LoopState) (cmd : Command) (sh : Sh) : Step :=
  let stdin_override := ls.pipeline_fds.1
  match open_pipe cmd.ctrl_op sh with
  | (none, sh) => .exited 1 sh
  | (some fds, sh) =>
    let ls := { ls with pipeline_fds := fds }
    let stdout_override := fds.2
    let builtin := w.get_builtin cmd
    let f := fork_if_needed builtin cmd.ctrl_op sh
    if f.1 = -1 then .exited 1 f.2
    else if f.1 = 0 then
      match builtin with
      | some b => run_builtin b cmd ls stdin_override stdout_override f.2
      | none => run_external cmd stdin_override stdout_override f.2
    else run_parent w cmd ls f.1 stdin_override stdout_override f.2

/-- One iteration of the loop of `run_command_list`. -/
def run_command (w : World) (ls : LoopState) (cmd : Command) (sh : Sh) : Step :=
  run_expanded w ls (expand_command_words w cmd sh) sh

/-- The loop of `run_command_list` over the commands that are left; `.next`
when the list is exhausted, with the locals as the loop leaves them. -/
def run_commands (w : World) : List Command → LoopState → Sh → Step
  | [], ls, sh => .next ls sh
  | cmd :: rest, ls, sh =>
    match run_command w ls cmd sh with
    | .next ls sh => run_commands w rest ls sh
    | s => s

/-- The values the locals of `run_command_list` start with. -/
def LoopState.init : LoopState :=
  { pipeline_fds := (-1, -1), pipeline_pgid := 0, pipeline_jid := -1 }

/-- The function `run_command_list` of `runner.c`. -/
def run_command_list (w : World) (cl : List Command) (sh : Sh) : Step :=
  match run_commands w cl LoopState.init sh with
  | .next _ sh => .returned 0 sh
  | s => s

/-- The local `pipeline_pgid` with which the loop goes on, if it does. -/
def Step.pgid : Step → Option Int
  | .next ls _ => some ls.pipeline_pgid
  | _ => none

/-- The value `run_command_list` returns, if it returns. -/
def Step.ret : Step → Option Int
  | .returned ret _ => some ret
  | _ => none

/-! ## Sample states and answers of the kernel -/

/-- A shell right after start: the three standard descriptors on the terminal,
an empty job table, no failure to come. -/
def Sh.boot : Sh :=
  { fds := fun fd => if fd = 0 ∨ fd = 1 ∨ fd = 2 then some { name := "tty", flags := O_RDWR } else none
    nofile := 16
    faults := []
    pids := []
    status := 0
    bg_pid := 0
    jobs := []
    next_jid := 0
    var_list := []
    environ := []
    err_out := []
    calls := [] }

/-- A kernel for which every call of `wait_on_fg_gid` succeeds on a terminal,
the group's children ending with the given statuses. -/
def FgEnv.calm (waits : List Int) : FgEnv :=
  { kill := 0, isatty_claim := 1, errno_claim := 0, tcsetpgrp_claim := 0
    waits := waits, wait_errno := ECHILD
    isatty_return := 1, errno_return := 0, getpgid := 7, tcsetpgrp_return := 0 }

/-- A command `< missing > out` run outside any pipeline. -/
def cmd_two_redirs : Command :=
  { ctrl_op := .fg, words := ["cat"], assignments := []
    io_redirs := [{ io_op := OP_LESS, io_number := 0, filename := "missing" },
                  { io_op := OP_GREAT, io_number := 1, filename := "out" }] }

/-- A kernel whose `waitpid` fails with `EINTR` after one child was reaped. -/
def FgEnv.wait_fails : FgEnv := { FgEnv.calm [0] with wait_errno := 4 }

/-- A shell with one more descriptor, 3, open on a file. -/
def Sh.with_fd3 : Sh :=
  { Sh.boot with fds := Function.update Sh.boot.fds 3 (some { name := "data", flags := O_RDONLY }) }

/-- A world with the one builtin `cd`, which succeeds and changes nothing;
words expand to themselves and every foreground wait goes well. -/
def World.sample : World :=
  { get_builtin := fun cmd =>
      if cmd.words.head? = some "cd" then some (fun _ _ sh => (0, sh)) else none
    expand := fun _ word => word
    fg_env := fun _ => FgEnv.calm [0] }

/-- The command `ls |`. -/
def cmd_ls_pipe : Command := { ctrl_op := .pl, words := ["ls"], assignments := [], io_redirs := [] }

/-- The command `cd /tmp ;`. -/
def cmd_cd : Command := { ctrl_op := .fg, words := ["cd", "/tmp"], assignments := [], io_redirs := [] }

/-- The command `pwd ;`, an external program here. -/
def cmd_pwd : Command := { ctrl_op := .fg, words := ["pwd"], assignments := [], io_redirs := [] }

/-- The command `cd /tmp < missing ;`. -/
def cmd_cd_missing : Command :=
  { cmd_cd with io_redirs := [{ io_op := OP_LESS, io_number := 0, filename := "missing" }] }

/-- The polls of a process group reach "no more children" in a sweep: every
status delivered is a normal exit or a death by signal, not a stop, and the
call after them fails with `ECHILD`. -/
def PollScript.reaps (p : PollScript) : Prop :=
  p.last = .failed ECHILD ∧
    ∀ s ∈ p.statuses, WIFSTOPPED s = false ∧ (WIFEXITED s = true ∨ WIFSIGNALED s = true)

instance (p : PollScript) : Decidable p.reaps := by
  unfold PollScript.reaps; exact inferInstance

/-- A shell that tracks two background jobs, job 1 on group 10 and job 2 on
group 20. -/
def Sh.two_jobs : Sh :=
  { Sh.boot with jobs := [{ jid := 1, pgid := 10 }, { jid := 2, pgid := 20 }], next_jid := 3 }

/-- A sweep in which the only child of group 10 is found killed by signal 9
and nothing has changed for the other groups. -/
def poll_group10_killed : Int → PollScript := fun pgid =>
  if pgid = 10 then { statuses := [9], last := .failed ECHILD }
  else { statuses := [], last := .idle }

/-! ## Frames: what a piece of code may touch -/

/-- Calls that allocate memory or set the environment. -/
def Sys.is_mem : Sys → Bool
  | .malloc => true
  | .setenv _ _ => true
  | _ => false

/-- Calls that work on the process itself: its descriptors, memory, signal
dispositions, a builtin, `execvp`. -/
def Sys.is_local : Sys → Bool
  | .close _ => true
  | .dup2 _ _ => true
  | .dup _ => true
  | .open_ _ _ => true
  | .malloc => true
  | .setenv _ _ => true
  | .sigaction _ => true
  | .builtin => true
  | .execvp => true
  | _ => false

/-- Calls made while waiting for a process group. -/
def Sys.is_wait : Sys → Bool
  | .kill _ _ => true
  | .isatty _ => true
  | .tcsetpgrp _ _ => true
  | .getpgid _ => true
  | .waitpid _ _ => true
  | .jobs_remove_gid _ => true
  | _ => false

/-- The state `sh2` comes from `sh1` by recording calls that all satisfy `P`,
with the job table untouched when `J` holds and the descriptor table
untouched when `F` holds. -/
def Frame (J F : Prop) (P : Sys → Bool) (sh1 sh2 : Sh) : Prop :=
  (J → sh2.jobs = sh1.jobs) ∧ (F → sh2.fds = sh1.fds) ∧
    ∃ l, sh2.calls = sh1.calls ++ l ∧ ∀ c ∈ l, P c = true

/-! ## The standard descriptors -/

/-- The descriptor is one of 0, 1 and 2. -/
def is_std (fd : Int) : Prop := fd = 0 ∨ fd = 1 ∨ fd = 2

instance (fd : Int) : Decidable (is_std fd) := by
  unfold is_std; exact inferInstance

/-- The call closes one of the descriptors 0, 1 and 2 or makes it refer to
another file: a `close` of it or a `dup2` onto it. -/
def Sys.hits_std : Sys → Bool
  | .close fd => decide (is_std fd)
  | .dup2 _ dst => decide (is_std dst)
  | _ => false

/-- The descriptors 0, 1 and 2 are open. -/
def StdOpen (sh : Sh) : Prop := ∀ fd, is_std fd → (sh.fds fd).isSome = true

/-- From `sh1` to `sh2` the descriptors 0, 1 and 2 refer to the same open files
and no recorded call has one of them as its target. -/
def Spares (sh1 sh2 : Sh) : Prop :=
  (∀ fd, is_std fd → sh2.fds fd = sh1.fds fd) ∧
    ∃ l, sh2.calls = sh1.calls ++ l ∧ ∀ c ∈ l, c.hits_std = false

/-- No node of the overlay list has 0, 1 or 2 as its `realfd`. -/
def RealOk (l : List BuiltinRedir) : Prop := ∀ rec ∈ l, ¬ is_std rec.realfd

/-- The step leaves the process in the loop or returns from the function. -/
def Step.goes_on : Step → Bool
  | .next _ _ => true
  | .returned _ _ => true
  | _ => false

/-- The local `pipeline_fds[0]` with which the loop goes on, `-1` otherwise. -/
def Step.read_end : Step → Int
  | .next ls _ => ls.pipeline_fds.1
  | _ => -1

/-- A world whose builtins do not touch the descriptor table. -/
def World.builtins_keep_fds (w : World) : Prop :=
  ∀ cmd b, w.get_builtin cmd = some b → ∀ c l s, (b c l s).2.fds = s.fds

/-- The command `cd /tmp 2>&1 ;`. -/
def cmd_cd_dup : Command :=
  { cmd_cd with io_redirs := [{ io_op := OP_GREATAND, io_number := 2, filename := "1" }] }

/-- The command `cd /tmp 2>&1 > log 1>&- < in ;`. -/
def cmd_cd_redirs : Command :=
  { cmd_cd with
    io_redirs := [{ io_op := OP_GREATAND, io_number := 2, filename := "1" },
                  { io_op := OP_GREAT, io_number := 1, filename := "log" },
                  { io_op := OP_GREATAND, io_number := 1, filename := "-" },
                  { io_op := OP_LESS, io_number := 0, filename := "in" }] }

/-- A shell whose environment holds `HOME`. -/
def Sh.with_home : Sh := { Sh.boot with environ := [("HOME", "/root")] }

/-- The command `cd /tmp > log 1>&- ;`. -/
def cmd_cd_close : Command :=
  { cmd_cd with
    io_redirs := [{ io_op := OP_GREAT, io_number := 1, filename := "log" },
                  { io_op := OP_GREATAND, io_number := 1, filename := "-" }] }

/-- The command `cd /tmp 4> a 1> b 2>&1 ;`. -/
def cmd_cd_alias : Command :=
  { cmd_cd with
    io_redirs := [{ io_op := OP_GREAT, io_number := 4, filename := "a" },
                  { io_op := OP_GREAT, io_number := 1, filename := "b" },
                  { io_op := OP_GREATAND, io_number := 2, filename := "1" }] }

/-! ## Theorems -/

/-- A wait status is a normal exit or a termination by signal, never both. -/
theorem not_WIFEXITED_of_WIFSIGNALED (s : Int) (h : WIFSIGNALED s = true) :
    WIFEXITED s = false := by
  simp only [WIFSIGNALED, WIFEXITED, WTERMSIG, decide_eq_true_eq, beq_eq_false_iff_ne] at *
  intro h0
  rw [h0] at h
  simp at h

/-- The status `fg_wait_loop` leaves when no status is a stop and the last call reports `ECHILD`. -/
theorem fg_wait_loop_status (pgid : Int) (waits : List Int) (last_status : Int) (sh : Sh)
    (hns : ∀ s ∈ waits, WIFSTOPPED s = false) :
    (fg_wait_loop pgid ECHILD waits last_status sh).2.status =
      (let l := (waits.getLast?).getD last_status
       if WIFEXITED l then WEXITSTATUS l
       else if WIFSIGNALED l then 128 + WTERMSIG l else sh.status) := by
  induction waits generalizing last_status sh with
  | nil =>
    simp only [fg_wait_loop, List.getLast?_nil, Option.getD_none, if_true]
    by_cases h1 : WIFEXITED last_status = true
    · simp [h1, jobs_remove_gid, Sh.call]
    · by_cases h2 : WIFSIGNALED last_status = true
      · simp [h1, h2, jobs_remove_gid, Sh.call]
      · simp [h1, h2, jobs_remove_gid, Sh.call]
  | cons s rest ih =>
    have hs : WIFSTOPPED s = false := hns s (List.mem_cons_self _ _)
    have hr : ∀ t ∈ rest, WIFSTOPPED t = false := fun t ht => hns t (List.mem_cons_of_mem _ ht)
    simp only [fg_wait_loop, hs, Bool.false_eq_true, if_false]
    rw [ih _ _ hr]
    cases rest with
    | nil => simp [Sh.call]
    | cons t ts =>
      have hx : (t :: ts).getLast? = some ((t :: ts).getLast (List.cons_ne_nil _ _)) :=
        List.getLast?_eq_getLast _ _
      simp [Sh.call, List.getLast?_cons_cons, hx]

/-- The tail of `wait_on_fg_gid` leaves `params.status` alone. -/
theorem fg_return_terminal_status (env : FgEnv) (retval : Int) (sh : Sh) :
    (fg_return_terminal env retval sh).2.status = sh.status := by
  unfold fg_return_terminal
  simp only [Sh.call]
  split_ifs <;> rfl

/-- When `wait_on_fg_gid` gets to its wait loop, it is `fg_wait_and_return`
after the calls that lead there. -/
theorem wait_on_fg_gid_reaches (env : FgEnv) (pgid : Int) (sh : Sh)
    (h : reaches_wait_loop env pgid) :
    ∃ sh0 : Sh, sh0.status = sh.status ∧
      wait_on_fg_gid env pgid sh = fg_wait_and_return env pgid sh0 := by
  obtain ⟨hp, hk, hc⟩ := h
  unfold wait_on_fg_gid
  rw [if_neg (not_lt.mpr hp)]
  simp only [hk, if_false]
  by_cases ht : env.isatty_claim ≠ 0
  · rw [if_pos ht] at hc
    refine ⟨((sh.call (.kill pgid SIGCONT)).call (.isatty STDIN_FILENO)).call
      (.tcsetpgrp STDIN_FILENO pgid), rfl, ?_⟩
    rw [if_pos ht, if_neg hc]
  · rw [if_neg ht] at hc
    refine ⟨(sh.call (.kill pgid SIGCONT)).call (.isatty STDIN_FILENO), rfl, ?_⟩
    rw [if_neg ht, if_pos hc]

/-- C1: in `wait_on_fg_gid`, for every sequence of `waitpid` statuses that
holds no stop event and is followed by `ECHILD`, `params.status` afterwards is
`N` when the last observed status is a normal exit with code `N`, and `128 + S`
when it is a termination by signal `S`. -/
theorem wait_on_fg_gid_exit_status (env : FgEnv) (pgid : Int) (sh : Sh) (last N S : Int)
    (hreach : reaches_wait_loop env pgid)
    (hns : ∀ s ∈ env.waits, WIFSTOPPED s = false)
    (hech : env.wait_errno = ECHILD)
    (hlast : env.waits.getLast? = some last) :
    (WIFEXITED last = true → WEXITSTATUS last = N →
        (wait_on_fg_gid env pgid sh).2.status = N) ∧
    (WIFSIGNALED last = true → WTERMSIG last = S →
        (wait_on_fg_gid env pgid sh).2.status = 128 + S) := by
  obtain ⟨sh0, _, heq⟩ := wait_on_fg_gid_reaches env pgid sh hreach
  have hst : (wait_on_fg_gid env pgid sh).2.status =
      (if WIFEXITED last then WEXITSTATUS last
       else if WIFSIGNALED last then 128 + WTERMSIG last else sh0.status) := by
    rw [heq]
    unfold fg_wait_and_return
    simp only [fg_return_terminal_status]
    rw [hech, fg_wait_loop_status pgid env.waits 0 sh0 hns, hlast]
    simp
  constructor
  · intro he hN
    rw [hst, if_pos he, hN]
  · intro hsig hS
    rw [hst, if_neg (by simp [not_WIFEXITED_of_WIFSIGNALED last hsig]), if_pos hsig, hS]

/-- C1 at work: a group whose last child is killed by signal 9 after another
exited with code 3 leaves status 137; `9` is the status word of that death. -/
theorem wait_on_fg_gid_exit_status_witness :
    (wait_on_fg_gid (FgEnv.calm [768, 9]) 42 Sh.boot).2.status = 128 + 9 :=
  (wait_on_fg_gid_exit_status (FgEnv.calm [768, 9]) 42 Sh.boot 9 0 9
    (by decide) (by decide) rfl rfl).2 (by decide) (by decide)

/-- C2: `get_io_flags` maps every operator to the flags of the table, so only
`>` and `>&` carry `O_EXCL`, only `>|` carries `O_TRUNC`, only `>>` carries
`O_APPEND`, and the read operators `<` and `<&` are read-only without `O_CREAT`. -/
theorem get_io_flags_table :
    get_io_flags OP_LESS = O_RDONLY ∧ get_io_flags OP_LESSAND = O_RDONLY ∧
    get_io_flags OP_GREAT = O_WRONLY ||| O_CREAT ||| O_EXCL ∧
    get_io_flags OP_GREATAND = O_WRONLY ||| O_CREAT ||| O_EXCL ∧
    get_io_flags OP_DGREAT = O_WRONLY ||| O_CREAT ||| O_APPEND ∧
    get_io_flags OP_LESSGREAT = O_RDWR ||| O_CREAT ∧
    get_io_flags OP_CLOBBER = O_WRONLY ||| O_CREAT ||| O_TRUNC ∧
    (∀ op, get_io_flags op &&& O_EXCL ≠ 0 ↔ op = OP_GREAT ∨ op = OP_GREATAND) ∧
    (∀ op, get_io_flags op &&& O_TRUNC ≠ 0 ↔ op = OP_CLOBBER) ∧
    (∀ op, get_io_flags op &&& O_APPEND ≠ 0 ↔ op = OP_DGREAT) ∧
    (∀ op, get_io_flags op &&& O_ACCMODE = O_RDONLY ↔ op = OP_LESS ∨ op = OP_LESSAND) ∧
    (∀ op, op = OP_LESS ∨ op = OP_LESSAND → get_io_flags op &&& O_CREAT = 0) := by
  refine ⟨rfl, rfl, rfl, rfl, rfl, rfl, rfl, ?_, ?_, ?_, ?_, ?_⟩ <;>
    intro op <;> cases op <;> decide

/-- Once the local `status` of `do_io_redirects` is `-1` it stays so. -/
theorem io_redirects_loop_sticky (rs : List IoRedir) (sh : Sh) :
    (io_redirects_loop rs (-1) sh).1 = -1 := by
  induction rs generalizing sh with
  | nil => rfl
  | cons r rs ih => simp only [io_redirects_loop, ite_self]; exact ih _

/-- The loop of `do_io_redirects` over a list split in two. -/
theorem io_redirects_loop_append (pre post : List IoRedir) (status : Int) (sh : Sh) :
    io_redirects_loop (pre ++ post) status sh =
      io_redirects_loop post (io_redirects_loop pre status sh).1
        (io_redirects_loop pre status sh).2 := by
  induction pre generalizing status sh with
  | nil => rfl
  | cons r rs ih => simp only [List.cons_append, io_redirects_loop]; exact ih _ _

/-- C3 as stated fails: with `< missing > out`, the first redirection fails at
`open`, and `do_io_redirects` still opens `out` and moves it onto descriptor 1
before it returns `-1`. -/
theorem do_io_redirects_goes_on_after_failure :
    (io_redirect { io_op := OP_LESS, io_number := 0, filename := "missing" }
        { Sh.boot with faults := [true] }).1 = true ∧
    (do_io_redirects cmd_two_redirs { Sh.boot with faults := [true] }).1 = -1 ∧
    (do_io_redirects cmd_two_redirs { Sh.boot with faults := [true] }).2.calls =
      [.open_ "missing" O_RDONLY, .open_ "out" (O_WRONLY ||| O_CREAT ||| O_EXCL),
       .dup2 3 1, .close 3] ∧
    (do_io_redirects cmd_two_redirs { Sh.boot with faults := [true] }).2.fds 1 =
      some { name := "out", flags := O_WRONLY ||| O_CREAT ||| O_EXCL } := by
  decide

/-- C3, amended: when the redirection at index `pre.length` fails,
`do_io_redirects` goes on with the redirections after it, in the state the
failed one left, and returns `-1`; the child then ends through `err(1, 0)`
and `execvp` is not reached. -/
theorem do_io_redirects_failure (cmd : Command) (pre post : List IoRedir) (r : IoRedir)
    (sh : Sh) (hsplit : cmd.io_redirs = pre ++ r :: post)
    (hfail : (io_redirect r (io_redirects_loop pre 0 sh).2).1 = true) :
    do_io_redirects cmd sh =
        io_redirects_loop post (-1) (io_redirect r (io_redirects_loop pre 0 sh).2).2 ∧
    (do_io_redirects cmd sh).1 = -1 ∧
    exec_command cmd sh = .exited 1 (do_io_redirects cmd sh).2 := by
  have h1 : do_io_redirects cmd sh =
      io_redirects_loop post (-1) (io_redirect r (io_redirects_loop pre 0 sh).2).2 := by
    unfold do_io_redirects
    rw [hsplit, io_redirects_loop_append]
    simp only [io_redirects_loop, hfail, if_true]
  have h2 : (do_io_redirects cmd sh).1 = -1 := by
    rw [h1]; exact io_redirects_loop_sticky _ _
  refine ⟨h1, h2, ?_⟩
  unfold exec_command
  simp [h2]

/-- C3 amended, at work on `< missing > out`. -/
theorem do_io_redirects_failure_witness :
    (do_io_redirects cmd_two_redirs { Sh.boot with faults := [true] }).1 = -1 ∧
    exec_command cmd_two_redirs { Sh.boot with faults := [true] } =
      .exited 1 (do_io_redirects cmd_two_redirs { Sh.boot with faults := [true] }).2 :=
  (do_io_redirects_failure cmd_two_redirs []
    [{ io_op := OP_GREAT, io_number := 1, filename := "out" }]
    { io_op := OP_LESS, io_number := 0, filename := "missing" }
    { Sh.boot with faults := [true] } rfl (by decide)).2

/-- With no stop event among the statuses and a last `waitpid` that fails
with an error other than `ECHILD`, the wait loop is left through `err`, the
failing call being the last one recorded. -/
theorem fg_wait_loop_error (pgid wait_errno : Int) (waits : List Int) (last_status : Int)
    (sh : Sh) (hns : ∀ s ∈ waits, WIFSTOPPED s = false) (he : wait_errno ≠ ECHILD) :
    (fg_wait_loop pgid wait_errno waits last_status sh).1 = true := by
  induction waits generalizing last_status sh with
  | nil => simp [fg_wait_loop, he]
  | cons s rest ih =>
    have hs : WIFSTOPPED s = false := hns s (List.mem_cons_self _ _)
    simp only [fg_wait_loop, hs, Bool.false_eq_true, if_false]
    exact ih _ _ (fun t ht => hns t (List.mem_cons_of_mem _ ht))

/-- On a terminal, the tail of `wait_on_fg_gid` entered with `retval = -1`
returns `-1`, its last call being `tcsetpgrp` to the shell's own group, or
`getpgid(0)` when that one fails. -/
theorem fg_return_terminal_error (env : FgEnv) (sh : Sh) (hr : env.isatty_return ≠ 0) :
    (fg_return_terminal env (-1) sh).1 = -1 ∧
    (env.getpgid ≠ -1 → (fg_return_terminal env (-1) sh).2.calls.getLast? =
      some (.tcsetpgrp STDIN_FILENO env.getpgid)) ∧
    (env.getpgid = -1 → (fg_return_terminal env (-1) sh).2.calls.getLast? =
      some (.getpgid 0)) := by
  unfold fg_return_terminal
  rw [if_pos hr]
  by_cases hg : env.getpgid = -1
  · rw [if_pos hg]
    exact ⟨rfl, fun h => absurd hg h, fun _ => by simp [Sh.call]⟩
  · rw [if_neg hg]
    refine ⟨?_, fun _ => ?_, fun h => absurd h hg⟩
    · split_ifs <;> rfl
    · split_ifs <;> simp [Sh.call]

/-- C4 as stated fails: on a terminal, when `kill(pgid, SIGCONT)` fails,
`wait_on_fg_gid` returns `-1` having made no other call: the terminal is not
handed back. -/
theorem wait_on_fg_gid_kill_failure_skips_return_terminal :
    (wait_on_fg_gid { FgEnv.calm [0] with kill := -1 } 42 Sh.boot).1 = -1 ∧
    (wait_on_fg_gid { FgEnv.calm [0] with kill := -1 } 42 Sh.boot).2.calls =
      [.kill 42 SIGCONT] := by
  decide

/-- C4, amended: on a terminal, a `waitpid` failure other than `ECHILD` in the
wait loop makes `wait_on_fg_gid` return `-1` after the ReturnTerminal step: its
last calls are `getpgid(0)` and, when that succeeds, `tcsetpgrp` of standard
input to the shell's own group.  A failure of `kill` or of the first
`tcsetpgrp` makes it return `-1` at once, that failing call being its last. -/
theorem wait_on_fg_gid_failure (env : FgEnv) (pgid : Int) (sh : Sh) (hp : 0 ≤ pgid) :
    (env.kill ≠ -1 → env.isatty_claim ≠ 0 → env.tcsetpgrp_claim ≠ -1 →
      env.isatty_return ≠ 0 → (∀ s ∈ env.waits, WIFSTOPPED s = false) →
      env.wait_errno ≠ ECHILD →
        (wait_on_fg_gid env pgid sh).1 = -1 ∧
        (env.getpgid ≠ -1 → (wait_on_fg_gid env pgid sh).2.calls.getLast? =
          some (.tcsetpgrp STDIN_FILENO env.getpgid)) ∧
        (env.getpgid = -1 → (wait_on_fg_gid env pgid sh).2.calls.getLast? =
          some (.getpgid 0))) ∧
    (env.kill = -1 →
      wait_on_fg_gid env pgid sh = (-1, sh.call (.kill pgid SIGCONT))) ∧
    (env.kill ≠ -1 → env.isatty_claim ≠ 0 → env.tcsetpgrp_claim = -1 →
      wait_on_fg_gid env pgid sh =
        (-1, ((sh.call (.kill pgid SIGCONT)).call (.isatty STDIN_FILENO)).call
          (.tcsetpgrp STDIN_FILENO pgid))) := by
  refine ⟨?_, ?_, ?_⟩
  · intro hk ht hc hr hns he
    have hw : wait_on_fg_gid env pgid sh = fg_wait_and_return env pgid
        (((sh.call (.kill pgid SIGCONT)).call (.isatty STDIN_FILENO)).call
          (.tcsetpgrp STDIN_FILENO pgid)) := by
      unfold wait_on_fg_gid
      rw [if_neg (not_lt.mpr hp), if_neg hk, if_pos ht, if_neg hc]
    rw [hw]
    unfold fg_wait_and_return
    dsimp only
    rw [fg_wait_loop_error pgid env.wait_errno env.waits 0 _ hns he, if_pos rfl]
    exact fg_return_terminal_error env _ hr
  · intro hk
    unfold wait_on_fg_gid
    rw [if_neg (not_lt.mpr hp), if_pos hk]
  · intro hk ht hc
    unfold wait_on_fg_gid
    rw [if_neg (not_lt.mpr hp), if_neg hk, if_pos ht, if_pos hc]

/-- C4 amended, at work: a `waitpid` that fails with `EINTR` on a terminal. -/
theorem wait_on_fg_gid_failure_witness :
    (wait_on_fg_gid FgEnv.wait_fails 42 Sh.boot).1 = -1 ∧
    (wait_on_fg_gid FgEnv.wait_fails 42 Sh.boot).2.calls.getLast? =
      some (.tcsetpgrp STDIN_FILENO 7) :=
  have h := (wait_on_fg_gid_failure FgEnv.wait_fails 42 Sh.boot (by decide)).1
    (by decide) (by decide) (by decide) (by decide) (by decide) (by decide)
  ⟨h.1, h.2.1 (by decide)⟩

/-- C7 as stated fails, against the comment of `move_fd` itself: when `dup2`
succeeds and `close(src)` then reports an error, `move_fd(3, 1)` returns `-1`
although descriptor 1 no longer refers to the terminal but to what 3 referred
to. -/
theorem move_fd_failure_changes_dst :
    (move_fd 3 1 { Sh.with_fd3 with faults := [false, true] }).1 = -1 ∧
    Sh.with_fd3.fds 1 = some { name := "tty", flags := O_RDWR } ∧
    (move_fd 3 1 { Sh.with_fd3 with faults := [false, true] }).2.fds 1 =
      some { name := "data", flags := O_RDONLY } ∧
    (move_fd 3 1 { Sh.with_fd3 with faults := [false, true] }).2.calls =
      [.dup2 3 1, .close 3] := by
  decide

/-- C5 fails on the code for `ls | cd /tmp ; pwd`: the foreground builtin `cd`
leaves the loop through `continue`, so `pipeline_pgid` is still the group 100
of `ls` when `pwd` is processed; `pwd` (pid 101) is put into group 100, no
second job is registered and the shell waits for group 100. -/
theorem pipeline_pgid_kept_after_foreground_builtin :
    (run_commands World.sample [cmd_ls_pipe, cmd_cd] LoopState.init
        { Sh.boot with pids := [100, 101] }).pgid = some 100 ∧
    (run_command_list World.sample [cmd_ls_pipe, cmd_cd, cmd_pwd]
        { Sh.boot with pids := [100, 101] }).sh.calls =
      [.pipe, .fork, .close 4, .setpgid 100 0, .jobs_add 100, .malloc, .builtin, .close 3,
       .fork, .setpgid 101 100, .kill 100 SIGCONT, .isatty 0, .tcsetpgrp 0 100,
       .waitpid (-100) WSTOPPED, .waitpid (-100) WSTOPPED, .jobs_remove_gid 100,
       .isatty 0, .getpgid 0, .tcsetpgrp 0 7] := by
  decide

/-- C6 fails on the code for `cd /tmp < missing`: `open` fails and
`do_builtin_io_redirects` returns `-1`, but `run_command_list` drops that
value, invokes the builtin all the same and sets the status from the builtin's
result alone, here 0.  For `cd /tmp 2>&1` with a failing `dup`, the function
itself reports success and stores `-1` as the `realfd`. -/
theorem builtin_invoked_after_failed_redirect :
    (do_builtin_io_redirects cmd_cd_dup [] { Sh.boot with faults := [false, true] }).1 = 0 ∧
    (do_builtin_io_redirects cmd_cd_dup [] { Sh.boot with faults := [false, true] }).2.1 =
      [{ pseudofd := 2, realfd := -1 }] ∧
    (do_builtin_io_redirects cmd_cd_missing [] { Sh.boot with faults := [true] }).1 = -1 ∧
    (run_command_list World.sample [cmd_cd_missing] { Sh.boot with faults := [true] }).ret =
      some 0 ∧
    (run_command_list World.sample [cmd_cd_missing] { Sh.boot with faults := [true] }).sh.calls =
      [.open_ "missing" O_RDONLY, .builtin] ∧
    (run_command_list World.sample [cmd_cd_missing] { Sh.boot with faults := [true] }).sh.status =
      0 := by
  decide

/-! ### Background sweep -/

/-- What one run of the inner loop of `wait_on_bg_jobs` does to the state: it
records polls of its group and at most the removal of its job, writes lines
for its own job id only, and changes the job table by that removal alone. -/
theorem bg_poll_loop_effect (pgid jid : Int) (last : PollEnd) (sts : List Int)
    (last_status : Int) (sh : Sh) :
    ∃ cs out,
      (bg_poll_loop pgid jid last sts last_status sh).2.calls = sh.calls ++ cs ∧
      (∀ c ∈ cs, c = .waitpid (-pgid) POLL_FLAGS ∨ c = .jobs_remove_gid pgid) ∧
      (bg_poll_loop pgid jid last sts last_status sh).2.err_out = sh.err_out ++ out ∧
      (∀ m ∈ out, m = .done jid ∨ m = .terminated jid ∨ m = .stopped jid) ∧
      ((bg_poll_loop pgid jid last sts last_status sh).1 = .reaped →
        (bg_poll_loop pgid jid last sts last_status sh).2.jobs =
          sh.jobs.filter (fun j => j.pgid != pgid)) ∧
      ((bg_poll_loop pgid jid last sts last_status sh).1 ≠ .reaped →
        (bg_poll_loop pgid jid last sts last_status sh).2.jobs = sh.jobs) := by
  induction sts generalizing last_status sh with
  | nil =>
    cases last with
    | idle =>
      refine ⟨[.waitpid (-pgid) POLL_FLAGS], [], ?_⟩
      simp [bg_poll_loop, Sh.call]
    | failed errno =>
      by_cases he : errno = ECHILD
      · by_cases h1 : WIFEXITED last_status = true
        · refine ⟨[.waitpid (-pgid) POLL_FLAGS, .jobs_remove_gid pgid], [.done jid], ?_⟩
          simp [bg_poll_loop, Sh.call, Sh.print, jobs_remove_gid, he, h1]
        · by_cases h2 : WIFSIGNALED last_status = true
          · refine ⟨[.waitpid (-pgid) POLL_FLAGS, .jobs_remove_gid pgid], [.terminated jid], ?_⟩
            simp [bg_poll_loop, Sh.call, Sh.print, jobs_remove_gid, he, h1, h2]
          · refine ⟨[.waitpid (-pgid) POLL_FLAGS, .jobs_remove_gid pgid], [], ?_⟩
            simp [bg_poll_loop, Sh.call, jobs_remove_gid, he, h1, h2]
      · refine ⟨[.waitpid (-pgid) POLL_FLAGS], [], ?_⟩
        simp [bg_poll_loop, Sh.call, he]
  | cons s rest ih =>
    by_cases hs : WIFSTOPPED s = true
    · refine ⟨[.waitpid (-pgid) POLL_FLAGS], [.stopped jid], ?_⟩
      simp [bg_poll_loop, Sh.call, Sh.print, hs]
    · obtain ⟨cs, out, h1, h2, h3, h4, h5, h6⟩ :=
        ih s (sh.call (.waitpid (-pgid) POLL_FLAGS))
      have hrw : bg_poll_loop pgid jid last (s :: rest) last_status sh =
          bg_poll_loop pgid jid last rest s (sh.call (.waitpid (-pgid) POLL_FLAGS)) := by
        simp [bg_poll_loop, hs]
      rw [hrw]
      refine ⟨.waitpid (-pgid) POLL_FLAGS :: cs, out, ?_, ?_, h3, h4, h5, h6⟩
      · rw [h1]; simp [Sh.call]
      · intro c hc
        rcases List.mem_cons.mp hc with rfl | hc
        · exact Or.inl rfl
        · exact h2 c hc

/-- When the polls of a group reach "no more children", the inner loop of
`wait_on_bg_jobs` ends in the removal branch and writes exactly one line:
`Terminated` when the last status is a death by signal, `Done` otherwise. -/
theorem bg_poll_loop_reaps (pgid jid : Int) (sts : List Int) (last_status : Int) (sh : Sh)
    (hl : WIFEXITED last_status = true ∨ WIFSIGNALED last_status = true)
    (hs : ∀ s ∈ sts, WIFSTOPPED s = false ∧ (WIFEXITED s = true ∨ WIFSIGNALED s = true)) :
    (bg_poll_loop pgid jid (.failed ECHILD) sts last_status sh).1 = .reaped ∧
    (bg_poll_loop pgid jid (.failed ECHILD) sts last_status sh).2.err_out =
      sh.err_out ++ [if WIFSIGNALED (sts.getLast?.getD last_status) = true
        then .terminated jid else .done jid] ∧
    ∃ cs, (bg_poll_loop pgid jid (.failed ECHILD) sts last_status sh).2.calls = sh.calls ++ cs ∧
      Sys.jobs_remove_gid pgid ∈ cs := by
  induction sts generalizing last_status sh with
  | nil =>
    have hcs : ∃ cs, (bg_poll_loop pgid jid (.failed ECHILD) [] last_status sh).2.calls =
        sh.calls ++ cs ∧ Sys.jobs_remove_gid pgid ∈ cs :=
      ⟨[.waitpid (-pgid) POLL_FLAGS, .jobs_remove_gid pgid],
        by simp [bg_poll_loop, Sh.call, jobs_remove_gid]; split_ifs <;> simp [Sh.print], by simp⟩
    by_cases h1 : WIFEXITED last_status = true
    · have h2 : ¬ WIFSIGNALED last_status = true := by
        intro h2; rw [not_WIFEXITED_of_WIFSIGNALED _ h2] at h1; exact absurd h1 (by decide)
      refine ⟨?_, ?_, hcs⟩ <;>
        simp [bg_poll_loop, Sh.call, Sh.print, jobs_remove_gid, h1, h2]
    · have h2 : WIFSIGNALED last_status = true := hl.resolve_left h1
      refine ⟨?_, ?_, hcs⟩ <;>
        simp [bg_poll_loop, Sh.call, Sh.print, jobs_remove_gid, h1, h2]
  | cons s rest ih =>
    have hs0 := hs s (List.mem_cons_self _ _)
    have hr := ih s (sh.call (.waitpid (-pgid) POLL_FLAGS)) hs0.2
      (fun t ht => hs t (List.mem_cons_of_mem _ ht))
    have hrw : bg_poll_loop pgid jid (.failed ECHILD) (s :: rest) last_status sh =
        bg_poll_loop pgid jid (.failed ECHILD) rest s (sh.call (.waitpid (-pgid) POLL_FLAGS)) := by
      simp [bg_poll_loop, hs0.1]
    rw [hrw]
    obtain ⟨hr1, hr2, cs, hcs, hmem⟩ := hr
    refine ⟨hr1, ?_, .waitpid (-pgid) POLL_FLAGS :: cs, ?_, List.mem_cons_of_mem _ hmem⟩
    · rw [hr2]
      cases rest with
      | nil => simp [Sh.call]
      | cons t ts =>
        have hx : (t :: ts).getLast? = some ((t :: ts).getLast (List.cons_ne_nil _ _)) :=
          List.getLast?_eq_getLast _ _
        simp [Sh.call, List.getLast?_cons_cons, hx]
    · rw [hcs]
      simp [Sh.call]

/-- The sweep of `wait_on_bg_jobs` from index `i`, the locals `job_count` and
`jobs` agreeing with the job table: it ends; it only drops jobs; its lines are
for jobs of the table; and a job that it polls and whose polls reach "no more
children" gets exactly one `Done` or `Terminated` line and leaves the table. -/
theorem bg_sweep_spec (poll : Int → PollScript) :
    ∀ (fuel i : Nat) (sh : Sh), sh.jobs.length - i ≤ fuel →
      (sh.jobs.map Job.pgid).Nodup → (sh.jobs.map Job.jid).Nodup →
      ∃ r cs out,
        bg_sweep poll fuel i sh.jobs.length sh.jobs sh = some r ∧
        r.2.calls = sh.calls ++ cs ∧ r.2.err_out = sh.err_out ++ out ∧
        r.2.jobs.Sublist sh.jobs ∧
        (∀ m ∈ out, ∃ K ∈ sh.jobs,
          m = .done K.jid ∨ m = .terminated K.jid ∨ m = .stopped K.jid) ∧
        (∀ J ∈ sh.jobs, Sys.waitpid (-J.pgid) POLL_FLAGS ∈ cs → (poll J.pgid).reaps →
          out.count (.done J.jid) + out.count (.terminated J.jid) = 1 ∧
          (Msg.terminated J.jid ∈ out ↔
            ∃ s, (poll J.pgid).statuses.getLast? = some s ∧ WIFSIGNALED s = true) ∧
          Sys.jobs_remove_gid J.pgid ∈ cs ∧ J ∉ r.2.jobs) := by
  intro fuel
  induction fuel with
  | zero =>
    intro i sh hf _ _
    have hi : ¬ i < sh.jobs.length := by omega
    exact ⟨(0, sh), [], [], by simp [bg_sweep, hi], by simp, by simp, List.Sublist.refl _,
      by simp, by simp⟩
  | succ fuel ih =>
    intro i sh hf hnp hnj
    by_cases hi : i < sh.jobs.length
    swap
    · exact ⟨(0, sh), [], [], by simp [bg_sweep, hi], by simp, by simp, List.Sublist.refl _,
        by simp, by simp⟩
    obtain ⟨K, hget⟩ : ∃ K, sh.jobs.get? i = some K :=
      ⟨sh.jobs.get ⟨i, hi⟩, List.get?_eq_get hi⟩
    have hK : K ∈ sh.jobs := List.get?_mem hget
    obtain ⟨cs0, out0, hc0, hcs0, ho0, hout0, hjr, hjk⟩ :=
      bg_poll_loop_effect K.pgid K.jid (poll K.pgid).last (poll K.pgid).statuses 0 sh
    have hreap : (poll K.pgid).reaps →
        (bg_poll_loop K.pgid K.jid (poll K.pgid).last (poll K.pgid).statuses 0 sh).1 = .reaped ∧
        out0 = [if WIFSIGNALED ((poll K.pgid).statuses.getLast?.getD 0) = true
          then .terminated K.jid else .done K.jid] ∧
        Sys.jobs_remove_gid K.pgid ∈ cs0 := by
      intro hr
      have h := bg_poll_loop_reaps K.pgid K.jid (poll K.pgid).statuses 0 sh
        (Or.inl (by decide)) hr.2
      rw [← hr.1] at h
      obtain ⟨h1, h2, cs, hcs, hmem⟩ := h
      have hcs0' : cs0 = cs := List.append_cancel_left (hc0.symm.trans hcs)
      exact ⟨h1, List.append_cancel_left (ho0.symm.trans h2), hcs0' ▸ hmem⟩
    -- a poll of the group of `J` made for `K` means `J` is `K`
    have hF1 : ∀ J ∈ sh.jobs, Sys.waitpid (-J.pgid) POLL_FLAGS ∈ cs0 → J = K := by
      intro J hJ hmem
      rcases hcs0 _ hmem with h | h
      · have hp : J.pgid = K.pgid := by
          have := (Sys.waitpid.injEq _ _ _ _).mp h
          omega
        exact List.inj_on_of_nodup_map hnp hJ hK hp
      · exact absurd h (by simp)
    -- the lines written for `K` are not lines of another job
    have hF2 : ∀ J ∈ sh.jobs, J ≠ K →
        out0.count (.done J.jid) = 0 ∧ out0.count (.terminated J.jid) = 0 ∧
        Msg.terminated J.jid ∉ out0 := by
      intro J hJ hne
      have hjid : J.jid ≠ K.jid := fun h => hne (List.inj_on_of_nodup_map hnj hJ hK h)
      have hd : Msg.done J.jid ∉ out0 := by
        intro hm
        rcases hout0 _ hm with h | h | h
        · exact hjid ((Msg.done.injEq _ _).mp h)
        · exact absurd h (by simp)
        · exact absurd h (by simp)
      have ht : Msg.terminated J.jid ∉ out0 := by
        intro hm
        rcases hout0 _ hm with h | h | h
        · exact absurd h (by simp)
        · exact hjid ((Msg.terminated.injEq _ _).mp h)
        · exact absurd h (by simp)
      exact ⟨List.count_eq_zero_of_not_mem hd, List.count_eq_zero_of_not_mem ht, ht⟩
    have hout0K : ∀ m ∈ out0, ∃ K ∈ sh.jobs,
        m = .done K.jid ∨ m = .terminated K.jid ∨ m = .stopped K.jid :=
      fun m hm => ⟨K, hK, hout0 m hm⟩
    have hstep : bg_sweep poll (fuel + 1) i sh.jobs.length sh.jobs sh =
        (match (bg_poll_loop K.pgid K.jid (poll K.pgid).last (poll K.pgid).statuses 0 sh).1 with
        | .error => some (-1,
            (bg_poll_loop K.pgid K.jid (poll K.pgid).last (poll K.pgid).statuses 0 sh).2)
        | .kept => bg_sweep poll fuel (i + 1) sh.jobs.length sh.jobs
            (bg_poll_loop K.pgid K.jid (poll K.pgid).last (poll K.pgid).statuses 0 sh).2
        | .reaped => bg_sweep poll fuel (i + 1)
            (bg_poll_loop K.pgid K.jid (poll K.pgid).last (poll K.pgid).statuses 0 sh).2.jobs.length
            (bg_poll_loop K.pgid K.jid (poll K.pgid).last (poll K.pgid).statuses 0 sh).2.jobs
            (bg_poll_loop K.pgid K.jid (poll K.pgid).last (poll K.pgid).statuses 0 sh).2) := by
      simp only [bg_sweep, if_pos hi, hget]
    generalize hr0 : bg_poll_loop K.pgid K.jid (poll K.pgid).last (poll K.pgid).statuses 0 sh = r0
      at hc0 ho0 hjr hjk hreap hstep
    rcases r0 with ⟨res, sh0⟩
    cases res with
    | error =>
      have hjobs : sh0.jobs = sh.jobs := hjk (by simp)
      refine ⟨(-1, sh0), cs0, out0, hstep, hc0, ho0, by simp [hjobs], hout0K, ?_⟩
      intro J hJ hmem hre
      have hJK := hF1 J hJ hmem
      subst hJK
      exact absurd (hreap hre).1 (by simp)
    | kept =>
      have hjobs : sh0.jobs = sh.jobs := hjk (by simp)
      obtain ⟨r, cs1, out1, hrun, hc1, ho1, hsub, hmsg, hJs⟩ :=
        ih (i + 1) sh0 (by rw [hjobs]; omega) (by rw [hjobs]; exact hnp) (by rw [hjobs]; exact hnj)
      rw [hjobs] at hrun hsub hmsg hJs
      refine ⟨r, cs0 ++ cs1, out0 ++ out1, hstep.trans hrun, ?_, ?_, hsub, ?_, ?_⟩
      · rw [hc1, hc0, List.append_assoc]
      · rw [ho1, ho0, List.append_assoc]
      · intro m hm
        rcases List.mem_append.mp hm with h | h
        · exact hout0K m h
        · exact hmsg m h
      · intro J hJ hmem hre
        have hne : J ≠ K := by
          intro h; subst h; exact absurd (hreap hre).1 (by simp)
        have hmem1 : Sys.waitpid (-J.pgid) POLL_FLAGS ∈ cs1 := by
          rcases List.mem_append.mp hmem with h | h
          · exact absurd (hF1 J hJ h) hne
          · exact h
        obtain ⟨hcount, hterm, hrem, hgone⟩ := hJs J hJ hmem1 hre
        obtain ⟨hd0, ht0, htm0⟩ := hF2 J hJ hne
        refine ⟨?_, ?_, List.mem_append_right _ hrem, hgone⟩
        · rw [List.count_append, List.count_append, hd0, ht0]; omega
        · rw [← hterm, List.mem_append]
          exact ⟨fun h => h.resolve_left htm0, Or.inr⟩
    | reaped =>
      have hjobs : sh0.jobs = sh.jobs.filter (fun j => j.pgid != K.pgid) := hjr rfl
      have hsub0 : sh0.jobs.Sublist sh.jobs := by rw [hjobs]; exact List.filter_sublist _
      have hlen : sh0.jobs.length ≤ sh.jobs.length := hsub0.length_le
      obtain ⟨r, cs1, out1, hrun, hc1, ho1, hsub, hmsg, hJs⟩ :=
        ih (i + 1) sh0 (by omega) (hnp.sublist (hsub0.map _)) (hnj.sublist (hsub0.map _))
      refine ⟨r, cs0 ++ cs1, out0 ++ out1, hstep.trans hrun, ?_, ?_, hsub.trans hsub0, ?_, ?_⟩
      · rw [hc1, hc0, List.append_assoc]
      · rw [ho1, ho0, List.append_assoc]
      · intro m hm
        rcases List.mem_append.mp hm with h | h
        · exact hout0K m h
        · obtain ⟨K1, hK1, h1⟩ := hmsg m h
          exact ⟨K1, hsub0.subset hK1, h1⟩
      · intro J hJ hmem hre
        by_cases hJK : J = K
        · subst hJK
          obtain ⟨_, hline, hrem0⟩ := hreap hre
          -- the rest of the sweep writes no line for `J`: its jobs have other ids
          have hrest : ∀ m ∈ out1, m ≠ .done J.jid ∧ m ≠ .terminated J.jid := by
            intro m hm
            obtain ⟨K1, hK1, h1⟩ := hmsg m hm
            have hK1' : K1 ∈ sh.jobs ∧ K1.pgid ≠ J.pgid := by
              rw [hjobs] at hK1; simpa using hK1
            have hjid : K1.jid ≠ J.jid := fun h =>
              hK1'.2 (congrArg Job.pgid (List.inj_on_of_nodup_map hnj hK1'.1 hJ h))
            rcases h1 with h1 | h1 | h1 <;> subst h1 <;> simp [hjid]
          have hd1 : out1.count (.done J.jid) = 0 :=
            List.count_eq_zero_of_not_mem (fun h => (hrest _ h).1 rfl)
          have ht1 : Msg.terminated J.jid ∉ out1 := fun h => (hrest _ h).2 rfl
          have hgone : J ∉ r.2.jobs := by
            intro h
            have := hsub.subset h
            rw [hjobs] at this
            simp at this
          refine ⟨?_, ?_, List.mem_append_left _ hrem0, hgone⟩
          · rw [List.count_append, List.count_append, hd1,
              List.count_eq_zero_of_not_mem ht1, hline]
            by_cases hsig : WIFSIGNALED ((poll J.pgid).statuses.getLast?.getD 0) = true <;>
              simp [hsig]
          · rw [List.mem_append, hline]
            constructor
            · intro h
              have h0 := h.resolve_right ht1
              by_cases hsig : WIFSIGNALED ((poll J.pgid).statuses.getLast?.getD 0) = true
              · cases hl : (poll J.pgid).statuses.getLast? with
                | none => rw [hl] at hsig; exact absurd hsig (by decide)
                | some s => rw [hl] at hsig; exact ⟨s, rfl, hsig⟩
              · simp [hsig] at h0
            · rintro ⟨s, hs, hsig⟩
              left
              simp [hs, hsig]
        · have hmem1 : Sys.waitpid (-J.pgid) POLL_FLAGS ∈ cs1 := by
            rcases List.mem_append.mp hmem with h | h
            · exact absurd (hF1 J hJ h) hJK
            · exact h
          have hJ0 : J ∈ sh0.jobs := by
            rw [hjobs]
            have hp : J.pgid ≠ K.pgid := fun h => hJK (List.inj_on_of_nodup_map hnp hJ hK h)
            simpa using ⟨hJ, hp⟩
          obtain ⟨hcount, hterm, hrem, hgone⟩ := hJs J hJ0 hmem1 hre
          obtain ⟨hd0, ht0, htm0⟩ := hF2 J hJ hJK
          refine ⟨?_, ?_, List.mem_append_right _ hrem, hgone⟩
          · rw [List.count_append, List.count_append, hd0, ht0]; omega
          · rw [← hterm, List.mem_append]
            exact ⟨fun h => h.resolve_left htm0, Or.inr⟩

/-- C9: in `wait_on_bg_jobs`, which always ends, for every tracked job `J`
that the sweep polls and whose polls reach "no more children", exactly one of
the lines `[J] Done` and `[J] Terminated` is written for `J` during the sweep,
`Terminated` exactly when the last status observed is a death by signal;
`jobs_remove_gid` is called for the group of `J`, and `J` is no longer in the
job table.  The job table holds no two jobs with the same group or the same
job id. -/
theorem wait_on_bg_jobs_reports_once (poll : Int → PollScript) (sh : Sh) (J : Job)
    (hnp : (sh.jobs.map Job.pgid).Nodup) (hnj : (sh.jobs.map Job.jid).Nodup)
    (hJ : J ∈ sh.jobs) (hre : (poll J.pgid).reaps) :
    ∃ r, wait_on_bg_jobs poll sh = some r ∧
      (Sys.waitpid (-J.pgid) POLL_FLAGS ∈ r.2.calls.drop sh.calls.length →
        (r.2.err_out.drop sh.err_out.length).count (.done J.jid) +
          (r.2.err_out.drop sh.err_out.length).count (.terminated J.jid) = 1 ∧
        (Msg.terminated J.jid ∈ r.2.err_out.drop sh.err_out.length ↔
          ∃ s, (poll J.pgid).statuses.getLast? = some s ∧ WIFSIGNALED s = true) ∧
        Sys.jobs_remove_gid J.pgid ∈ r.2.calls.drop sh.calls.length ∧
        J ∉ r.2.jobs) := by
  obtain ⟨r, cs, out, hrun, hc, ho, _, _, hJs⟩ :=
    bg_sweep_spec poll sh.jobs.length 0 sh (by omega) hnp hnj
  refine ⟨r, hrun, ?_⟩
  rw [hc, ho, List.drop_left, List.drop_left]
  intro hpolled
  exact hJs J hJ hpolled hre

/-- C9 at work: job 1, whose only child was killed, gets its `Terminated` line
and leaves the table. -/
theorem wait_on_bg_jobs_reports_once_witness :
    ∃ r, wait_on_bg_jobs poll_group10_killed Sh.two_jobs = some r ∧
      (r.2.err_out.drop 0).count (.done 1) + (r.2.err_out.drop 0).count (.terminated 1) = 1 ∧
      Msg.terminated 1 ∈ r.2.err_out.drop 0 ∧
      ({ jid := 1, pgid := 10 } : Job) ∉ r.2.jobs := by
  obtain ⟨r, hr, h⟩ := wait_on_bg_jobs_reports_once poll_group10_killed Sh.two_jobs
    { jid := 1, pgid := 10 } (by decide) (by decide) (by decide) (by decide)
  have hc : (wait_on_bg_jobs poll_group10_killed Sh.two_jobs).map (fun r => r.2.calls) =
      some [.waitpid (-10) POLL_FLAGS, .waitpid (-10) POLL_FLAGS, .jobs_remove_gid 10] := by
    decide
  rw [hr] at hc
  have hc' : r.2.calls = [.waitpid (-10) POLL_FLAGS, .waitpid (-10) POLL_FLAGS,
      .jobs_remove_gid 10] := by simpa using hc
  have h3 := h (by rw [hc']; decide)
  exact ⟨r, hr, h3.1, h3.2.1.mpr ⟨9, rfl, by decide⟩, h3.2.2.2⟩

/-! ### Frames -/

theorem Frame.refl (J F : Prop) (P : Sys → Bool) (sh : Sh) : Frame J F P sh sh :=
  ⟨fun _ => rfl, fun _ => rfl, [], by simp, by simp⟩

theorem Frame.trans {J F : Prop} {P : Sys → Bool} {a b c : Sh}
    (h1 : Frame J F P a b) (h2 : Frame J F P b c) : Frame J F P a c := by
  obtain ⟨j1, f1, l1, c1, p1⟩ := h1
  obtain ⟨j2, f2, l2, c2, p2⟩ := h2
  refine ⟨fun h => (j2 h).trans (j1 h), fun h => (f2 h).trans (f1 h), l1 ++ l2, ?_, ?_⟩
  · rw [c2, c1, List.append_assoc]
  · intro x hx
    rcases List.mem_append.mp hx with h | h
    · exact p1 x h
    · exact p2 x h

/-- A state that differs by one recorded call and nothing a frame watches. -/
theorem Frame.step {J F : Prop} {P : Sys → Bool} {a b : Sh} (c : Sys)
    (hj : b.jobs = a.jobs) (hf : F → b.fds = a.fds) (hc : b.calls = a.calls ++ [c])
    (hP : P c = true) : Frame J F P a b :=
  ⟨fun _ => hj, hf, [c], hc, by simpa using hP⟩

theorem sys_close_frame {J : Prop} {P : Sys → Bool} (fd : Int) (sh : Sh)
    (hP : P (.close fd) = true) : Frame J False P sh (sys_close fd sh).2 := by
  refine Frame.step (.close fd) ?_ (fun h => h.elim) ?_ hP <;>
    (unfold sys_close Sh.fault Sh.call; dsimp only; split <;> rfl)

theorem sys_dup2_frame {J : Prop} {P : Sys → Bool} (src dst : Int) (sh : Sh)
    (hP : P (.dup2 src dst) = true) : Frame J False P sh (sys_dup2 src dst sh).2 := by
  refine Frame.step (.dup2 src dst) ?_ (fun h => h.elim) ?_ hP <;>
    (unfold sys_dup2 Sh.fault Sh.call; dsimp only; split_ifs <;> try rfl) <;>
    (split <;> try rfl)

theorem sys_dup_frame {J : Prop} {P : Sys → Bool} (src : Int) (sh : Sh)
    (hP : P (.dup src) = true) : Frame J False P sh (sys_dup src sh).2 := by
  refine Frame.step (.dup src) ?_ (fun h => h.elim) ?_ hP <;>
    (unfold sys_dup Sh.fault Sh.call; dsimp only; split_ifs <;> try rfl) <;>
    (split <;> rfl)

theorem sys_open_frame {J : Prop} {P : Sys → Bool} (path : String) (flags : Nat) (sh : Sh)
    (hP : P (.open_ path flags) = true) : Frame J False P sh (sys_open path flags sh).2 := by
  refine Frame.step (.open_ path flags) ?_ (fun h => h.elim) ?_ hP <;>
    (unfold sys_open Sh.fault Sh.call; dsimp only; split_ifs <;> try rfl) <;>
    (split <;> rfl)

theorem sys_malloc_frame {J F : Prop} {P : Sys → Bool} (sh : Sh)
    (hP : P .malloc = true) : Frame J F P sh (sys_malloc sh).2 :=
  Frame.step .malloc rfl (fun _ => rfl) rfl hP

theorem sys_setenv_frame {J F : Prop} {P : Sys → Bool} (name value : String) (sh : Sh)
    (hP : P (.setenv name value) = true) : Frame J F P sh (sys_setenv name value sh).2 := by
  refine Frame.step (.setenv name value) ?_ (fun _ => ?_) ?_ hP <;>
    (unfold sys_setenv Sh.fault Sh.call; dsimp only; split_ifs <;> rfl)

theorem sys_sigaction_frame {J F : Prop} {P : Sys → Bool} (sig : Int) (sh : Sh)
    (hP : P (.sigaction sig) = true) : Frame J F P sh (sys_sigaction sig sh).2 :=
  Frame.step (.sigaction sig) rfl (fun _ => rfl) rfl hP

theorem sys_setpgid_frame {J F : Prop} {P : Sys → Bool} (pid pgid : Int) (sh : Sh)
    (hP : P (.setpgid pid pgid) = true) : Frame J F P sh (sys_setpgid pid pgid sh).2 :=
  Frame.step (.setpgid pid pgid) rfl (fun _ => rfl) rfl hP

theorem invoke_builtin_frame {J : Prop} {P : Sys → Bool} (b : BuiltinFn) (cmd : Command)
    (l : List BuiltinRedir) (sh : Sh) (hb : J → ∀ c l s, (b c l s).2.jobs = s.jobs)
    (hP : P .builtin = true) : Frame J False P sh (invoke_builtin b cmd l sh).2 :=
  ⟨fun h => hb h cmd l sh, fun h => h.elim, [.builtin], rfl, by simpa using hP⟩

theorem move_fd_frame {J : Prop} {P : Sys → Bool} (src dst : Int) (sh : Sh)
    (hP : ∀ c, c.is_local = true → P c = true) : Frame J False P sh (move_fd src dst sh).2 := by
  have h1 := sys_dup2_frame (J := J) src dst sh (hP _ rfl)
  have h2 := sys_close_frame (J := J) src (sys_dup2 src dst sh).2 (hP _ rfl)
  unfold move_fd
  dsimp only
  split_ifs
  · exact Frame.refl _ _ _ _
  · exact h1
  · exact h1.trans h2
  · exact h1.trans h2

theorem io_file_open_frame {J : Prop} {P : Sys → Bool} (r : IoRedir) (sh : Sh)
    (hP : ∀ c, c.is_local = true → P c = true) : Frame J False P sh (io_file_open r sh).2 := by
  have h1 := sys_open_frame (J := J) r.filename (get_io_flags r.io_op) sh (hP _ rfl)
  unfold io_file_open
  dsimp only
  split_ifs
  · exact h1
  · exact h1.trans (move_fd_frame _ _ _ hP)

theorem io_redirect_frame {J : Prop} {P : Sys → Bool} (r : IoRedir) (sh : Sh)
    (hP : ∀ c, c.is_local = true → P c = true) : Frame J False P sh (io_redirect r sh).2 := by
  unfold io_redirect
  dsimp only
  split_ifs
  · exact sys_close_frame _ _ (hP _ rfl)
  · split
    · exact sys_dup2_frame _ _ _ (hP _ rfl)
    · exact io_file_open_frame _ _ hP
  · exact io_file_open_frame _ _ hP

theorem io_redirects_loop_frame {J : Prop} {P : Sys → Bool} (rs : List IoRedir) (status : Int)
    (sh : Sh) (hP : ∀ c, c.is_local = true → P c = true) :
    Frame J False P sh (io_redirects_loop rs status sh).2 := by
  induction rs generalizing status sh with
  | nil => exact Frame.refl _ _ _ _
  | cons r rs ih => exact (io_redirect_frame r sh hP).trans (ih _ _)

theorem signal_restore_frame {J F : Prop} {P : Sys → Bool} (sh : Sh)
    (hP : ∀ c, c.is_local = true → P c = true) : Frame J F P sh (signal_restore sh).2 := by
  have h1 := sys_sigaction_frame (J := J) (F := F) SIGTSTP sh (hP _ rfl)
  have h2 := sys_sigaction_frame (J := J) (F := F) SIGINT (sys_sigaction SIGTSTP sh).2
    (hP _ rfl)
  have h3 := sys_sigaction_frame (J := J) (F := F) SIGTTOU
    (sys_sigaction SIGINT (sys_sigaction SIGTSTP sh).2).2 (hP _ rfl)
  unfold signal_restore
  dsimp only
  split_ifs
  · exact h1
  · exact h1.trans h2
  · exact (h1.trans h2).trans h3
  · exact (h1.trans h2).trans h3

/-! #### Variables -/

theorem new_var_frame {J F : Prop} {P : Sys → Bool} (name : String) (sh : Sh)
    (hP : ∀ c, c.is_mem = true → P c = true) : Frame J F P sh (new_var name sh).2 := by
  have h1 := sys_malloc_frame (J := J) (F := F) sh (hP _ rfl)
  unfold new_var
  dsimp only
  split_ifs
  · exact h1.trans ⟨fun _ => rfl, fun _ => rfl, [], by simp, by simp⟩
  · exact h1

theorem ensure_var_frame {J F : Prop} {P : Sys → Bool} (name : String) (sh : Sh)
    (hP : ∀ c, c.is_mem = true → P c = true) : Frame J F P sh (ensure_var name sh).2 := by
  unfold ensure_var
  split
  · exact Frame.refl _ _ _ _
  · exact new_var_frame _ _ hP

theorem vars_set_frame {J F : Prop} {P : Sys → Bool} (name value : String) (sh : Sh)
    (hP : ∀ c, c.is_mem = true → P c = true) : Frame J F P sh (vars_set name value sh).2 := by
  have h1 := ensure_var_frame (J := J) (F := F) name sh hP
  unfold vars_set
  split_ifs
  · exact Frame.refl _ _ _ _
  · split
    · rename_i h; rw [h] at h1; exact h1
    · rename_i v sh1 h
      rw [h] at h1
      dsimp only
      split_ifs
      · exact h1.trans (sys_setenv_frame _ _ _ (hP _ rfl))
      · exact (h1.trans (sys_malloc_frame sh1 (hP _ rfl))).trans
          ⟨fun _ => rfl, fun _ => rfl, [], by simp, by simp⟩
      · exact h1.trans (sys_malloc_frame sh1 (hP _ rfl))

theorem vars_export_frame {J F : Prop} {P : Sys → Bool} (name : String) (sh : Sh)
    (hP : ∀ c, c.is_mem = true → P c = true) : Frame J F P sh (vars_export name sh).2 := by
  have h1 := ensure_var_frame (J := J) (F := F) name sh hP
  unfold vars_export
  split_ifs
  · exact Frame.refl _ _ _ _
  · split
    · rename_i h; rw [h] at h1; exact h1
    · rename_i v sh1 h
      rw [h] at h1
      have h2 : Frame J F P sh
          { sh1 with
            var_list := update_var name (fun u => { u with exported := true }) sh1.var_list } :=
        h1.trans ⟨fun _ => rfl, fun _ => rfl, [], by simp, by simp⟩
      dsimp only
      split
      · split_ifs
        · exact h2.trans (sys_setenv_frame _ _ _ (hP _ rfl))
        · exact h2.trans (sys_setenv_frame _ _ _ (hP _ rfl))
      · exact h2

theorem do_variable_assignment_frame {J F : Prop} {P : Sys → Bool} (as : List Assignment)
    (export_all : Bool) (sh : Sh) (hP : ∀ c, c.is_mem = true → P c = true) :
    Frame J F P sh (do_variable_assignment as export_all sh).2 := by
  induction as generalizing sh with
  | nil => exact Frame.refl _ _ _ _
  | cons a rest ih =>
    have h1 := vars_set_frame (J := J) (F := F) a.name a.value sh hP
    have h2 := vars_export_frame (J := J) (F := F) a.name (vars_set a.name a.value sh).2 hP
    unfold do_variable_assignment
    dsimp only
    split_ifs
    · exact h1
    · exact h1.trans h2
    · exact (h1.trans h2).trans (ih _)
    · exact h1.trans (ih _)

/-! #### The overlay -/

theorem overlay_close_frame {J : Prop} {P : Sys → Bool} (n : Int) (l : List BuiltinRedir)
    (sh : Sh) (hP : ∀ c, c.is_local = true → P c = true) :
    ∀ r, overlay_close n l sh = some r → Frame J False P sh r.2 := by
  induction l with
  | nil => intro r h; simp [overlay_close] at h
  | cons rec rest ih =>
    intro r h
    unfold overlay_close at h
    split_ifs at h
    · cases h
      exact sys_close_frame _ _ (hP _ rfl)
    · split at h
      · rename_i r1 h1
        cases h
        exact ih r1 h1
      · cases h

theorem overlay_file_open_frame {J : Prop} {P : Sys → Bool} (r : IoRedir)
    (l : List BuiltinRedir) (sh : Sh) (hP : ∀ c, c.is_local = true → P c = true) :
    Frame J False P sh (overlay_file_open r l sh).sh := by
  have h1 := sys_open_frame (J := J) r.filename (get_io_flags r.io_op) sh (hP _ rfl)
  unfold overlay_file_open
  dsimp only
  repeat' split
  all_goals first
    | exact h1
    | exact h1.trans (move_fd_frame _ _ _ hP)
    | exact h1.trans (sys_malloc_frame _ (hP _ rfl))

theorem overlay_redirect_frame {J : Prop} {P : Sys → Bool} (r : IoRedir)
    (l : List BuiltinRedir) (sh : Sh) (hP : ∀ c, c.is_local = true → P c = true) :
    Frame J False P sh (overlay_redirect r l sh).sh := by
  unfold overlay_redirect
  dsimp only
  repeat' split
  all_goals first
    | exact Frame.refl _ _ _ _
    | exact overlay_close_frame _ _ _ hP _ (by assumption)
    | exact sys_malloc_frame _ (hP _ rfl)
    | exact sys_dup2_frame _ _ _ (hP _ rfl)
    | exact (sys_malloc_frame _ (hP _ rfl)).trans (sys_dup_frame _ _ (hP _ rfl))
    | exact overlay_file_open_frame _ _ _ hP

theorem overlay_loop_frame {J : Prop} {P : Sys → Bool} (rs : List IoRedir) (status : Int)
    (l : List BuiltinRedir) (sh : Sh) (hP : ∀ c, c.is_local = true → P c = true) :
    Frame J False P sh (overlay_loop rs status l sh).2.2 := by
  induction rs generalizing status l sh with
  | nil => exact Frame.refl _ _ _ _
  | cons r rs ih => exact (overlay_redirect_frame r l sh hP).trans (ih _ _ _)

theorem release_redirs_frame {J : Prop} {P : Sys → Bool} (l : List BuiltinRedir) (sh : Sh)
    (hP : ∀ c, c.is_local = true → P c = true) : Frame J False P sh (release_redirs l sh) := by
  induction l generalizing sh with
  | nil => exact Frame.refl _ _ _ _
  | cons rec rest ih => exact (sys_close_frame _ _ (hP _ rfl)).trans (ih _)

theorem push_override_frame {J F : Prop} {P : Sys → Bool} (pseudofd override : Int)
    (l : List BuiltinRedir) (sh : Sh) (hP : ∀ c, c.is_local = true → P c = true) :
    Frame J F P sh (push_override pseudofd override l sh).2 := by
  unfold push_override
  dsimp only
  split_ifs
  · exact sys_malloc_frame _ (hP _ rfl)
  · exact sys_malloc_frame _ (hP _ rfl)
  · exact Frame.refl _ _ _ _

/-- A change of `params.status` alone is inside every frame. -/
theorem Frame.set_status (J F : Prop) (P : Sys → Bool) (sh : Sh) (v : Int) :
    Frame J F P sh { sh with status := v } :=
  ⟨fun _ => rfl, fun _ => rfl, [], by simp, by simp⟩

theorem is_mem_is_local (c : Sys) (h : c.is_mem = true) : c.is_local = true := by
  cases c <;> simp_all [Sys.is_mem, Sys.is_local]

/-- The builtin branch of `run_command_list` makes local calls only, and leaves
the job table alone when the builtin does. -/
theorem run_builtin_frame {J : Prop} {P : Sys → Bool} (b : BuiltinFn) (cmd : Command)
    (ls : LoopState) (si so : Int) (sh : Sh) (hb : J → ∀ c l s, (b c l s).2.jobs = s.jobs)
    (hP : ∀ c, c.is_local = true → P c = true) :
    Frame J False P sh (run_builtin b cmd ls si so sh).sh := by
  have hm : ∀ c, c.is_mem = true → P c = true := fun c h => hP c (is_mem_is_local c h)
  have h0 := push_override_frame (J := J) (F := False) STDIN_FILENO si [] sh hP
  unfold run_builtin
  split
  · rename_i sh1 he
    rw [he] at h0
    exact h0
  · rename_i l0 sh1 he
    rw [he] at h0
    have h1 := push_override_frame (J := J) (F := False) STDOUT_FILENO so l0 sh1 hP
    split
    · rename_i sh2 he2
      rw [he2] at h1
      exact h0.trans h1
    · rename_i l1 sh2 he2
      rw [he2] at h1
      have h2 := overlay_loop_frame (J := J) cmd.io_redirs 0 l1 sh2 hP
      have h3 := (do_variable_assignment_frame (J := J) (F := False) cmd.assignments false
        (do_builtin_io_redirects cmd l1 sh2).2.2 hm)
      have h4 := invoke_builtin_frame (P := P) b cmd (do_builtin_io_redirects cmd l1 sh2).2.1
        (do_variable_assignment cmd.assignments false (do_builtin_io_redirects cmd l1 sh2).2.2).2
        hb (hP _ rfl)
      have h5 := release_redirs_frame (J := J) (do_builtin_io_redirects cmd l1 sh2).2.1
        (invoke_builtin b cmd (do_builtin_io_redirects cmd l1 sh2).2.1
          (do_variable_assignment cmd.assignments false
            (do_builtin_io_redirects cmd l1 sh2).2.2).2).2 hP
      have h6 := ((((h0.trans h1).trans h2).trans h3).trans h4).trans h5
      dsimp only
      split_ifs <;> exact h6.trans (Frame.set_status _ _ _ _ _)

theorem exec_command_frame {J : Prop} {P : Sys → Bool} (cmd : Command) (sh : Sh)
    (hP : ∀ c, c.is_local = true → P c = true) :
    Frame J False P sh (exec_command cmd sh).sh := by
  have hm : ∀ c, c.is_mem = true → P c = true := fun c h => hP c (is_mem_is_local c h)
  have h1 := io_redirects_loop_frame (J := J) cmd.io_redirs 0 sh hP
  have h2 := do_variable_assignment_frame (J := J) (F := False) cmd.assignments true
    (do_io_redirects cmd sh).2 hm
  have h3 := signal_restore_frame (J := J) (F := False)
    (do_variable_assignment cmd.assignments true (do_io_redirects cmd sh).2).2 hP
  have h4 : Frame J False P
      (signal_restore (do_variable_assignment cmd.assignments true (do_io_redirects cmd sh).2).2).2
      ((signal_restore (do_variable_assignment cmd.assignments true
        (do_io_redirects cmd sh).2).2).2.call .execvp).fault.2 :=
    Frame.step .execvp rfl (fun h => h.elim) rfl (hP _ rfl)
  unfold exec_command
  dsimp only
  split_ifs
  · exact h1
  · exact h1.trans h2
  · exact (h1.trans h2).trans h3
  · exact ((h1.trans h2).trans h3).trans h4
  · exact ((h1.trans h2).trans h3).trans h4

theorem move_override_frame {J : Prop} {P : Sys → Bool} (override fd : Int) (sh : Sh)
    (hP : ∀ c, c.is_local = true → P c = true) :
    Frame J False P sh (move_override override fd sh).2 := by
  unfold move_override
  split_ifs
  · exact move_fd_frame _ _ _ hP
  · exact Frame.refl _ _ _ _

theorem run_external_frame {J : Prop} {P : Sys → Bool} (cmd : Command) (si so : Int) (sh : Sh)
    (hP : ∀ c, c.is_local = true → P c = true) :
    Frame J False P sh (run_external cmd si so sh).sh := by
  have h0 := move_override_frame (J := J) si STDIN_FILENO sh hP
  have h1 := move_override_frame (J := J) so STDOUT_FILENO
    (move_override si STDIN_FILENO sh).2 hP
  unfold run_external
  dsimp only
  split_ifs
  · exact h0
  · exact h0.trans h1
  · exact (h0.trans h1).trans (exec_command_frame _ _ hP)

/-! #### Waiting and the parent -/

theorem Frame.print (J F : Prop) (P : Sys → Bool) (sh : Sh) (m : Msg) :
    Frame J F P sh (sh.print m) :=
  ⟨fun _ => rfl, fun _ => rfl, [], by simp [Sh.print], by simp⟩

theorem Frame.call {J F : Prop} {P : Sys → Bool} (sh : Sh) (c : Sys) (hP : P c = true) :
    Frame J F P sh (sh.call c) :=
  Frame.step c rfl (fun _ => rfl) rfl hP

theorem jobs_remove_gid_frame {F : Prop} {P : Sys → Bool} (pgid : Int) (sh : Sh)
    (hP : ∀ c, c.is_wait = true → P c = true) : Frame False F P sh (jobs_remove_gid pgid sh) :=
  ⟨fun h => h.elim, fun _ => rfl, [.jobs_remove_gid pgid], rfl,
    by simpa using hP (.jobs_remove_gid pgid) rfl⟩

theorem fg_wait_loop_frame {F : Prop} {P : Sys → Bool} (pgid wait_errno : Int)
    (waits : List Int) (last_status : Int) (sh : Sh) (hP : ∀ c, c.is_wait = true → P c = true) :
    Frame False F P sh (fg_wait_loop pgid wait_errno waits last_status sh).2 := by
  induction waits generalizing last_status sh with
  | nil =>
    have h1 := Frame.call (J := False) (F := F) sh (.waitpid (-pgid) WSTOPPED) (hP _ rfl)
    unfold fg_wait_loop
    dsimp only
    repeat' split
    all_goals first
      | exact h1
      | exact (h1.trans (Frame.set_status _ _ _ _ _)).trans (jobs_remove_gid_frame _ _ hP)
  | cons s rest ih =>
    have h1 := Frame.call (J := False) (F := F) sh (.waitpid (-pgid) WSTOPPED) (hP _ rfl)
    unfold fg_wait_loop
    dsimp only
    split
    · exact h1.trans (Frame.print _ _ _ _ _)
    · exact h1.trans (ih _ _)

theorem fg_return_terminal_frame {F : Prop} {P : Sys → Bool} (env : FgEnv) (retval : Int)
    (sh : Sh) (hP : ∀ c, c.is_wait = true → P c = true) :
    Frame False F P sh (fg_return_terminal env retval sh).2 := by
  have h1 := Frame.call (J := False) (F := F) sh (.isatty STDIN_FILENO) (hP _ rfl)
  have h2 := Frame.call (J := False) (F := F) (sh.call (.isatty STDIN_FILENO)) (.getpgid 0)
    (hP _ rfl)
  have h3 := Frame.call (J := False) (F := F)
    ((sh.call (.isatty STDIN_FILENO)).call (.getpgid 0)) (.tcsetpgrp STDIN_FILENO env.getpgid)
    (hP _ rfl)
  unfold fg_return_terminal
  dsimp only
  repeat' split
  all_goals first
    | exact h1
    | exact h1.trans h2
    | exact (h1.trans h2).trans h3

theorem wait_on_fg_gid_frame {F : Prop} {P : Sys → Bool} (env : FgEnv) (pgid : Int) (sh : Sh)
    (hP : ∀ c, c.is_wait = true → P c = true) :
    Frame False F P sh (wait_on_fg_gid env pgid sh).2 := by
  have h1 := Frame.call (J := False) (F := F) sh (.kill pgid SIGCONT) (hP _ rfl)
  have h2 := Frame.call (J := False) (F := F) (sh.call (.kill pgid SIGCONT))
    (.isatty STDIN_FILENO) (hP _ rfl)
  have h3 := Frame.call (J := False) (F := F)
    ((sh.call (.kill pgid SIGCONT)).call (.isatty STDIN_FILENO)) (.tcsetpgrp STDIN_FILENO pgid)
    (hP _ rfl)
  have hw : ∀ sh0, Frame False F P sh0 (fg_wait_and_return env pgid sh0).2 := fun sh0 =>
    (fg_wait_loop_frame pgid env.wait_errno env.waits 0 sh0 hP).trans
      (fg_return_terminal_frame env _ _ hP)
  unfold wait_on_fg_gid
  dsimp only
  repeat' split
  all_goals first
    | exact Frame.refl _ _ _ _
    | exact h1
    | exact h1.trans h2
    | exact (h1.trans h2).trans h3
    | exact (h1.trans h2).trans (hw _)
    | exact ((h1.trans h2).trans h3).trans (hw _)

theorem close_override_frame {J : Prop} {P : Sys → Bool} (override : Int) (sh : Sh)
    (hP : ∀ fd, P (.close fd) = true) : Frame J False P sh (close_override override sh) := by
  unfold close_override
  split_ifs
  · exact sys_close_frame _ _ (hP _)
  · exact Frame.refl _ _ _ _

theorem start_pipeline_frame {F : Prop} {P : Sys → Bool} (ls : LoopState) (child_pid : Int)
    (sh : Sh) (hP : ∀ g, P (.jobs_add g) = true) :
    Frame False F P sh (start_pipeline ls child_pid sh).2 := by
  have h1 : Frame False F P sh (jobs_add child_pid sh).2 :=
    ⟨fun h => h.elim, fun _ => rfl, [.jobs_add child_pid], rfl, by simpa using hP _⟩
  unfold start_pipeline
  dsimp only
  repeat' split
  all_goals first
    | exact h1
    | exact Frame.refl _ _ _ _

theorem await_or_detach_frame {F : Prop} {P : Sys → Bool} (w : World) (cmd : Command)
    (ls : LoopState) (child_pid : Int) (sh : Sh) (hP : ∀ c, c.is_wait = true → P c = true) :
    Frame False F P sh (await_or_detach w cmd ls child_pid sh).sh := by
  have h1 := wait_on_fg_gid_frame (F := F) (w.fg_env ls.pipeline_pgid) ls.pipeline_pgid sh hP
  have h2 : Frame False F P sh { sh with bg_pid := child_pid } :=
    ⟨fun _ => rfl, fun _ => rfl, [], by simp, by simp⟩
  unfold await_or_detach
  dsimp only
  repeat' split
  all_goals first
    | exact (h1.trans (Frame.print _ _ _ _ _)).trans (Frame.set_status _ _ _ _ _)
    | exact h1
    | exact (h2.trans (Frame.print _ _ _ _ _)).trans (Frame.set_status _ _ _ _ _)
    | exact h2.trans (Frame.set_status _ _ _ _ _)

/-- The parent's part of an iteration records no `fork`. -/
theorem run_parent_frame (w : World) (cmd : Command) (ls : LoopState) (child_pid si so : Int)
    (sh : Sh) :
    Frame False False (fun c => c != .fork) sh (run_parent w cmd ls child_pid si so sh).sh := by
  have hw : ∀ c : Sys, c.is_wait = true → (c != .fork) = true := by
    intro c h; cases c <;> simp_all [Sys.is_wait]
  have h1 := close_override_frame (J := False) (P := fun c => c != .fork) so sh
    (fun _ => by simp)
  have h2 := close_override_frame (J := False) (P := fun c => c != .fork) si
    (close_override so sh) (fun _ => by simp)
  have h3 := sys_setpgid_frame (J := False) (F := False) (P := fun c => c != .fork) child_pid
    ls.pipeline_pgid (close_override si (close_override so sh)) (by simp)
  have h4 := start_pipeline_frame (F := False) (P := fun c => c != .fork) ls child_pid
    (sys_setpgid child_pid ls.pipeline_pgid (close_override si (close_override so sh))).2
    (fun _ => by simp)
  have h123 := (h1.trans h2).trans h3
  have h1234 : ∀ o sh1, start_pipeline ls child_pid
      (sys_setpgid child_pid ls.pipeline_pgid (close_override si (close_override so sh))).2 =
        (o, sh1) → Frame False False (fun c => c != .fork) sh sh1 := by
    intro o sh1 he
    rw [he] at h4
    exact h123.trans h4
  unfold run_parent
  dsimp only
  repeat' split
  all_goals first
    | exact Frame.refl _ _ _ _
    | exact h123
    | exact h1234 _ _ (by assumption)
    | exact (h1234 _ _ (by assumption)).trans (await_or_detach_frame w cmd _ child_pid _ hw)

/-! ### Fork or run in-process -/

/-- Over a frame, the number of recorded calls equal to a call outside the
frame's kind does not change. -/
theorem Frame.count_eq {J F : Prop} {P : Sys → Bool} {a b : Sh} (h : Frame J F P a b)
    (x : Sys) (hx : P x = false) : b.calls.count x = a.calls.count x := by
  obtain ⟨_, _, l, hc, hl⟩ := h
  have hnot : x ∉ l := fun hm => by
    have := hl x hm
    rw [hx] at this
    exact absurd this (by decide)
  rw [hc, List.count_append, List.count_eq_zero_of_not_mem hnot, Nat.add_zero]

theorem needs_fork_iff (builtin : Option BuiltinFn) (ctrl_op : CtrlOp) :
    needs_fork builtin ctrl_op = true ↔ builtin.isNone = true ∨ ctrl_op ≠ .fg := by
  simp [needs_fork]

theorem sys_fork_calls (sh : Sh) : (sys_fork sh).2.calls = sh.calls ++ [.fork] := by
  unfold sys_fork Sh.call
  dsimp only
  split <;> rfl

theorem sys_pipe_frame {J : Prop} {P : Sys → Bool} (sh : Sh) (hP : P .pipe = true) :
    Frame J False P sh (sys_pipe sh).2 := by
  refine Frame.step .pipe ?_ (fun h => h.elim) ?_ hP <;>
    (unfold sys_pipe Sh.fault Sh.call; dsimp only; repeat' split) <;> rfl

theorem open_pipe_frame {J : Prop} {P : Sys → Bool} (ctrl_op : CtrlOp) (sh : Sh)
    (hP : P .pipe = true) : Frame J False P sh (open_pipe ctrl_op sh).2 := by
  unfold open_pipe
  split_ifs
  · exact sys_pipe_frame _ hP
  · exact Frame.refl _ _ _ _

/-- In one iteration of `run_command_list` that gets past `pipe`, `fork` is
called once when the command is not a builtin or is not a foreground command,
and not at all otherwise. -/
theorem run_expanded_forks (w : World) (ls : LoopState) (cmd : Command) (sh : Sh)
    (hpipe : (open_pipe cmd.ctrl_op sh).1.isSome = true) :
    (run_expanded w ls cmd sh).sh.calls.count .fork =
      sh.calls.count .fork +
        (if (w.get_builtin cmd).isNone = true ∨ cmd.ctrl_op ≠ .fg then 1 else 0) := by
  have hloc : ∀ c : Sys, c.is_local = true → c.is_local = true := fun _ h => h
  have h1 : (open_pipe cmd.ctrl_op sh).2.calls.count .fork = sh.calls.count .fork :=
    (open_pipe_frame (J := False) (P := fun c => c != .fork) cmd.ctrl_op sh (by simp)).count_eq
      .fork (by simp)
  obtain ⟨fds, hfds⟩ := Option.isSome_iff_exists.mp hpipe
  generalize hop : open_pipe cmd.ctrl_op sh = op at h1 hfds
  obtain ⟨o, sh1⟩ := op
  dsimp only at h1 hfds
  subst hfds
  unfold run_expanded
  rw [hop]
  dsimp only
  by_cases hn : needs_fork (w.get_builtin cmd) cmd.ctrl_op = true
  · have hcond := (needs_fork_iff _ _).mp hn
    rw [if_pos hcond]
    have hf : (fork_if_needed (w.get_builtin cmd) cmd.ctrl_op sh1).2.calls.count .fork =
        sh.calls.count .fork + 1 := by
      unfold fork_if_needed
      rw [if_pos hn, sys_fork_calls, List.count_append, h1]
      simp
    generalize fork_if_needed (w.get_builtin cmd) cmd.ctrl_op sh1 = f at hf
    repeat' split
    · exact hf
    · exact ((run_builtin_frame (J := False) _ _ _ _ _ _ (fun h => h.elim) hloc).count_eq
        .fork rfl).trans hf
    · exact ((run_external_frame (J := False) _ _ _ _ hloc).count_eq .fork rfl).trans hf
    · exact ((run_parent_frame _ _ _ _ _ _ _).count_eq .fork (by simp)).trans hf
  · have hcond : ¬ ((w.get_builtin cmd).isNone = true ∨ cmd.ctrl_op ≠ .fg) :=
      fun h => hn ((needs_fork_iff _ _).mpr h)
    rw [if_neg hcond, Nat.add_zero]
    have hf : fork_if_needed (w.get_builtin cmd) cmd.ctrl_op sh1 = (0, sh1) := by
      unfold fork_if_needed
      rw [if_neg hn]
    rw [hf]
    dsimp only
    rw [if_neg (by decide), if_pos rfl]
    split
    · exact ((run_builtin_frame (J := False) _ _ _ _ _ _ (fun h => h.elim) hloc).count_eq
        .fork rfl).trans h1
    · rename_i hb
      exact absurd (Or.inl (by simp [hb])) hcond

/-- A list of one foreground builtin is run to its end without a jump out of
the loop, and the whole run stays in the frame of the builtin branch. -/
theorem run_single_builtin (w : World) (cmd : Command) (sh : Sh) (b : BuiltinFn)
    (hb : w.get_builtin (expand_command_words w cmd sh) = some b) (hfg : cmd.ctrl_op = .fg) :
    ∃ sh', run_command_list w [cmd] sh = .returned 0 sh' ∧
      ∀ (J : Prop), (J → ∀ c l s, (b c l s).2.jobs = s.jobs) →
        Frame J False Sys.is_local sh sh' := by
  have hfg' : (expand_command_words w cmd sh).ctrl_op = .fg := hfg
  have hrun : run_command w LoopState.init cmd sh =
      run_builtin b (expand_command_words w cmd sh) LoopState.init (-1) (-1) sh := by
    unfold run_command run_expanded open_pipe fork_if_needed needs_fork
    simp [hb, hfg', LoopState.init]
  have hnext : ∃ sh', run_builtin b (expand_command_words w cmd sh) LoopState.init (-1) (-1) sh =
      .next LoopState.init sh' := by
    unfold run_builtin push_override
    simp [hfg']
  obtain ⟨sh', hsh'⟩ := hnext
  refine ⟨sh', ?_, ?_⟩
  · unfold run_command_list run_commands
    rw [hrun, hsh']
    rfl
  · intro J hkj
    have := run_builtin_frame (J := J) (P := Sys.is_local) b (expand_command_words w cmd sh)
      LoopState.init (-1) (-1) sh hkj (fun _ h => h)
    rw [hsh'] at this
    exact this

/-- C8: `run_command_list` calls `fork` for a command exactly when the command
is not a builtin or its control operator is not foreground (in an iteration
that gets past `pipe`); for a list of a single foreground builtin no `fork` and
no `jobs_add` is performed, and the job table is as the builtin leaves it:
unchanged when the builtin does not change it. -/
theorem run_command_list_forks_iff (w : World) (ls : LoopState) (cmd : Command) (sh : Sh) :
    ((open_pipe cmd.ctrl_op sh).1.isSome = true →
      (run_command w ls cmd sh).sh.calls.count .fork =
        sh.calls.count .fork +
          (if (w.get_builtin (expand_command_words w cmd sh)).isNone = true ∨
              cmd.ctrl_op ≠ .fg then 1 else 0)) ∧
    (∀ b, w.get_builtin (expand_command_words w cmd sh) = some b → cmd.ctrl_op = .fg →
      ∃ sh', run_command_list w [cmd] sh = .returned 0 sh' ∧
        sh'.calls.count .fork = sh.calls.count .fork ∧
        (∀ g, sh'.calls.count (.jobs_add g) = sh.calls.count (.jobs_add g)) ∧
        ((∀ c l s, (b c l s).2.jobs = s.jobs) → sh'.jobs = sh.jobs)) := by
  constructor
  · intro hpipe
    exact run_expanded_forks w ls (expand_command_words w cmd sh) sh hpipe
  · intro b hb hfg
    obtain ⟨sh', hrun, hframe⟩ := run_single_builtin w cmd sh b hb hfg
    refine ⟨sh', hrun, (hframe False (fun h => h.elim)).count_eq .fork rfl,
      fun g => (hframe False (fun h => h.elim)).count_eq (.jobs_add g) rfl, fun hjobs => ?_⟩
    exact (hframe True (fun _ => hjobs)).1 trivial

/-- C8 at work: `cd /tmp` alone forks nothing and leaves the job table as it
was, while `pwd` alone costs one `fork`. -/
theorem run_command_list_forks_iff_witness :
    (run_command World.sample LoopState.init cmd_pwd { Sh.boot with pids := [100] }).sh.calls.count
        .fork = 1 ∧
    ∃ sh', run_command_list World.sample [cmd_cd] Sh.two_jobs = .returned 0 sh' ∧
      sh'.calls.count .fork = 0 ∧ sh'.jobs = Sh.two_jobs.jobs :=
  ⟨(run_command_list_forks_iff World.sample LoopState.init cmd_pwd
      { Sh.boot with pids := [100] }).1 (by decide),
   let ⟨sh', h1, h2, _, h4⟩ := (run_command_list_forks_iff World.sample LoopState.init cmd_cd
      Sh.two_jobs).2 (fun _ _ sh => (0, sh)) rfl rfl
   ⟨sh', h1, h2, h4 (fun _ _ _ => rfl)⟩⟩

/-! ### The standard descriptors under a builtin -/

theorem Spares.here (sh : Sh) : Spares sh sh :=
  ⟨fun _ _ => rfl, [], by simp, by simp⟩

theorem Spares.seq {a b c : Sh} (h1 : Spares a b) (h2 : Spares b c) : Spares a c := by
  obtain ⟨f1, l1, c1, p1⟩ := h1
  obtain ⟨f2, l2, c2, p2⟩ := h2
  refine ⟨fun fd h => (f2 fd h).trans (f1 fd h), l1 ++ l2, ?_, ?_⟩
  · rw [c2, c1, List.append_assoc]
  · intro x hx
    rcases List.mem_append.mp hx with h | h
    · exact p1 x h
    · exact p2 x h

theorem StdOpen.of_spares {a b : Sh} (ha : StdOpen a) (h : Spares a b) : StdOpen b :=
  fun fd hfd => by rw [h.1 fd hfd]; exact ha fd hfd

/-- A frame that keeps the descriptor table and whose calls are no `close` or
`dup2` spares the standard descriptors. -/
theorem Frame.spares {J : Prop} {P : Sys → Bool} {a b : Sh} (h : Frame J True P a b)
    (hP : ∀ c, P c = true → c.hits_std = false) : Spares a b := by
  obtain ⟨_, hf, l, hc, hl⟩ := h
  exact ⟨fun fd _ => by rw [hf trivial], l, hc, fun c hc' => hP c (hl c hc')⟩

/-- A state that differs by one recorded call sparing the standard descriptors
and by the descriptor table outside them. -/
theorem Spares.one {a b : Sh} (c : Sys) (hf : ∀ fd, is_std fd → b.fds fd = a.fds fd)
    (hc : b.calls = a.calls ++ [c]) (hP : c.hits_std = false) : Spares a b :=
  ⟨hf, [c], hc, by simpa using hP⟩

theorem update_std {fds : Int → Option OpenFile} {fd : Int} {v : Option OpenFile}
    (hfd : ¬ is_std fd) : ∀ k, is_std k → Function.update fds fd v k = fds k := by
  intro k hk
  have hne : k ≠ fd := fun h => hfd (h ▸ hk)
  exact Function.update_noteq hne _ _

theorem lowest_free_is_free (sh : Sh) (fd : Int) (h : lowest_free sh = some fd) :
    sh.fds fd = none := by
  unfold lowest_free at h
  obtain ⟨k, hk, rfl⟩ := Option.map_eq_some.mp h
  have := List.find?_some hk
  simpa using this

theorem lowest_free_not_std (sh : Sh) (fd : Int) (ho : StdOpen sh)
    (h : lowest_free sh = some fd) : ¬ is_std fd := by
  intro hstd
  have h1 := ho fd hstd
  rw [lowest_free_is_free sh fd h] at h1
  exact absurd h1 (by decide)

theorem sys_close_spares (fd : Int) (sh : Sh) (hfd : ¬ is_std fd) :
    Spares sh (sys_close fd sh).2 := by
  refine Spares.one (.close fd) ?_ ?_ (by simp [Sys.hits_std, hfd])
  · unfold sys_close Sh.fault Sh.call
    dsimp only
    split
    · exact fun _ _ => rfl
    · exact update_std hfd
  · unfold sys_close Sh.fault Sh.call
    dsimp only
    split <;> rfl

theorem sys_dup2_spares (src dst : Int) (sh : Sh) (hdst : ¬ is_std dst) :
    Spares sh (sys_dup2 src dst sh).2 := by
  refine Spares.one (.dup2 src dst) ?_ ?_ (by simp [Sys.hits_std, hdst])
  · unfold sys_dup2 Sh.fault Sh.call
    dsimp only
    repeat' split
    all_goals first
      | exact fun _ _ => rfl
      | exact update_std hdst
  · unfold sys_dup2 Sh.fault Sh.call
    dsimp only
    repeat' split
    all_goals rfl

theorem sys_dup_spares (src : Int) (sh : Sh) (ho : StdOpen sh) :
    Spares sh (sys_dup src sh).2 ∧ ¬ is_std (sys_dup src sh).1 := by
  have hfree : ∀ fd, lowest_free ((sh.call (.dup src)).fault.2) = some fd → ¬ is_std fd :=
    fun fd h => lowest_free_not_std _ fd ho h
  refine ⟨Spares.one (.dup src) ?_ ?_ rfl, ?_⟩
  · unfold sys_dup
    dsimp only
    repeat' split
    all_goals first
      | exact fun _ _ => rfl
      | exact update_std (hfree _ (by assumption))
  · unfold sys_dup
    dsimp only
    repeat' split
    all_goals rfl
  · unfold sys_dup
    dsimp only
    repeat' split
    all_goals first
      | exact (by decide : ¬ is_std (-1))
      | exact hfree _ (by assumption)

theorem sys_open_spares (path : String) (flags : Nat) (sh : Sh) (ho : StdOpen sh) :
    Spares sh (sys_open path flags sh).2 ∧ ¬ is_std (sys_open path flags sh).1 := by
  have hfree : ∀ fd, lowest_free ((sh.call (.open_ path flags)).fault.2) = some fd →
      ¬ is_std fd := fun fd h => lowest_free_not_std _ fd ho h
  refine ⟨Spares.one (.open_ path flags) ?_ ?_ rfl, ?_⟩
  · unfold sys_open
    dsimp only
    repeat' split
    all_goals first
      | exact fun _ _ => rfl
      | exact update_std (hfree _ (by assumption))
  · unfold sys_open
    dsimp only
    repeat' split
    all_goals rfl
  · unfold sys_open
    dsimp only
    repeat' split
    all_goals first
      | exact (by decide : ¬ is_std (-1))
      | exact hfree _ (by assumption)

theorem move_fd_spares (src dst : Int) (sh : Sh) (hsrc : ¬ is_std src) (hdst : ¬ is_std dst) :
    Spares sh (move_fd src dst sh).2 := by
  have h1 := sys_dup2_spares src dst sh hdst
  have h2 := sys_close_spares src (sys_dup2 src dst sh).2 hsrc
  unfold move_fd
  dsimp only
  repeat' split
  all_goals first
    | exact Spares.here _
    | exact h1
    | exact h1.seq h2

theorem RealOk.cons {l : List BuiltinRedir} {n fd : Int} (hfd : ¬ is_std fd) (hl : RealOk l) :
    RealOk ({ pseudofd := n, realfd := fd } :: l) := by
  intro rec hrec
  rcases List.mem_cons.mp hrec with h | h
  · rw [h]; exact hfd
  · exact hl rec h

theorem is_mem_spares (c : Sys) (h : c.is_mem = true) : c.hits_std = false := by
  cases c <;> simp_all [Sys.is_mem, Sys.hits_std]

theorem is_wait_spares (c : Sys) (h : c.is_wait = true) : c.hits_std = false := by
  cases c <;> simp_all [Sys.is_wait, Sys.hits_std]

theorem sys_malloc_spares (sh : Sh) : Spares sh (sys_malloc sh).2 :=
  (sys_malloc_frame (J := True) (F := True) (P := Sys.is_mem) sh rfl).spares is_mem_spares

theorem find_rec_ok {l : List BuiltinRedir} (hl : RealOk l) (n : Int) (rec : BuiltinRedir)
    (h : find_rec n l = some rec) : ¬ is_std rec.realfd :=
  hl rec (List.mem_of_find?_eq_some h)

theorem overlay_close_spares (n : Int) (l : List BuiltinRedir) (sh : Sh) (hl : RealOk l) :
    ∀ r, overlay_close n l sh = some r → Spares sh r.2 ∧ RealOk r.1 := by
  induction l with
  | nil => intro r h; simp [overlay_close] at h
  | cons rec rest ih =>
    have hrec : ¬ is_std rec.realfd := hl rec (List.mem_cons_self _ _)
    have hrest : RealOk rest := fun x hx => hl x (List.mem_cons_of_mem _ hx)
    intro r h
    unfold overlay_close at h
    split_ifs at h
    · cases h
      exact ⟨sys_close_spares _ _ hrec, RealOk.cons hrec hrest⟩
    · split at h
      · rename_i r1 h1
        cases h
        obtain ⟨hs, hk⟩ := ih hrest r1 h1
        refine ⟨hs, ?_⟩
        intro x hx
        rcases List.mem_cons.mp hx with h | h
        · rw [h]; exact hrec
        · exact hk x h
      · cases h

theorem overlay_file_open_spares (r : IoRedir) (l : List BuiltinRedir) (sh : Sh)
    (ho : StdOpen sh) (hl : RealOk l) :
    Spares sh (overlay_file_open r l sh).sh ∧ RealOk (overlay_file_open r l sh).redir_list := by
  have ho1 := sys_open_spares r.filename (get_io_flags r.io_op) sh ho
  unfold overlay_file_open
  dsimp only
  repeat' split
  all_goals first
    | exact ⟨ho1.1, hl⟩
    | exact ⟨ho1.1.seq (move_fd_spares _ _ _ ho1.2 (find_rec_ok hl _ _ (by assumption))), hl⟩
    | exact ⟨ho1.1.seq (sys_malloc_spares _), RealOk.cons ho1.2 hl⟩
    | exact ⟨ho1.1.seq (sys_malloc_spares _), hl⟩

theorem overlay_redirect_spares (r : IoRedir) (l : List BuiltinRedir) (sh : Sh)
    (ho : StdOpen sh) (hl : RealOk l) :
    Spares sh (overlay_redirect r l sh).sh ∧ RealOk (overlay_redirect r l sh).redir_list := by
  have hdup : ∀ src, Spares sh (sys_dup src (sys_malloc sh).2).2 ∧
      ¬ is_std (sys_dup src (sys_malloc sh).2).1 := fun src =>
    ⟨(sys_malloc_spares sh).seq
        (sys_dup_spares src _ (ho.of_spares (sys_malloc_spares sh))).1,
      (sys_dup_spares src _ (ho.of_spares (sys_malloc_spares sh))).2⟩
  unfold overlay_redirect
  dsimp only
  repeat' split
  all_goals first
    | exact ⟨Spares.here _, hl⟩
    | exact ⟨(overlay_close_spares _ _ _ hl _ (by assumption)).1,
        (overlay_close_spares _ _ _ hl _ (by assumption)).2⟩
    | exact ⟨sys_malloc_spares _, RealOk.cons (by decide) hl⟩
    | exact ⟨sys_malloc_spares _, hl⟩
    | exact ⟨sys_dup2_spares _ _ _ (find_rec_ok hl _ _ (by assumption)), hl⟩
    | exact ⟨(hdup _).1, RealOk.cons (hdup _).2 hl⟩
    | exact overlay_file_open_spares _ _ _ ho hl

theorem overlay_loop_spares (rs : List IoRedir) (status : Int) (l : List BuiltinRedir) (sh : Sh)
    (ho : StdOpen sh) (hl : RealOk l) :
    Spares sh (overlay_loop rs status l sh).2.2 ∧ RealOk (overlay_loop rs status l sh).2.1 := by
  induction rs generalizing status l sh with
  | nil => exact ⟨Spares.here _, hl⟩
  | cons r rs ih =>
    obtain ⟨h1, h2⟩ := overlay_redirect_spares r l sh ho hl
    obtain ⟨h3, h4⟩ := ih (if (overlay_redirect r l sh).err then -1 else status)
      (overlay_redirect r l sh).redir_list (overlay_redirect r l sh).sh (ho.of_spares h1) h2
    exact ⟨h1.seq h3, h4⟩

theorem release_redirs_spares (l : List BuiltinRedir) (sh : Sh) (hl : RealOk l) :
    Spares sh (release_redirs l sh) := by
  induction l generalizing sh with
  | nil => exact Spares.here _
  | cons rec rest ih =>
    exact (sys_close_spares _ _ (hl rec (List.mem_cons_self _ _))).seq
      (ih _ (fun x hx => hl x (List.mem_cons_of_mem _ hx)))

theorem push_override_spares (pseudofd override : Int) (l : List BuiltinRedir) (sh : Sh)
    (hov : ¬ is_std override) (hl : RealOk l) :
    Spares sh (push_override pseudofd override l sh).2 ∧
      ∀ l', (push_override pseudofd override l sh).1 = some l' → RealOk l' := by
  unfold push_override
  dsimp only
  repeat' split
  all_goals first
    | exact ⟨sys_malloc_spares _, fun l' h => by cases h; exact RealOk.cons hov hl⟩
    | exact ⟨sys_malloc_spares _, fun l' h => by cases h⟩
    | exact ⟨Spares.here _, fun l' h => by cases h; exact hl⟩

theorem invoke_builtin_spares (b : BuiltinFn) (cmd : Command) (l : List BuiltinRedir) (sh : Sh)
    (hb : ∀ c l s, (b c l s).2.fds = s.fds) : Spares sh (invoke_builtin b cmd l sh).2 :=
  ⟨fun fd _ => by
      show (b cmd l sh).2.fds fd = sh.fds fd
      rw [hb], [.builtin], rfl, by simp [Sys.hits_std]⟩

/-- The builtin branch of `run_command_list` spares the standard descriptors
when they are open, the pipe ends it gets are not among them, and the builtin
does not touch the descriptor table. -/
theorem run_builtin_spares (b : BuiltinFn) (cmd : Command) (ls : LoopState) (si so : Int)
    (sh : Sh) (ho : StdOpen sh) (hsi : ¬ is_std si) (hso : ¬ is_std so)
    (hb : ∀ c l s, (b c l s).2.fds = s.fds) :
    Spares sh (run_builtin b cmd ls si so sh).sh := by
  obtain ⟨h0, hl0⟩ := push_override_spares STDIN_FILENO si [] sh hsi (fun _ h => by simp at h)
  unfold run_builtin
  split
  · rename_i sh1 he
    rw [he] at h0
    exact h0
  · rename_i l0 sh1 he
    rw [he] at h0 hl0
    obtain ⟨h1, hl1⟩ := push_override_spares STDOUT_FILENO so l0 sh1 hso (hl0 l0 rfl)
    split
    · rename_i sh2 he2
      rw [he2] at h1
      exact h0.seq h1
    · rename_i l1 sh2 he2
      rw [he2] at h1 hl1
      have h01 := h0.seq h1
      obtain ⟨h2, hl2⟩ := overlay_loop_spares cmd.io_redirs 0 l1 sh2 (ho.of_spares h01)
        (hl1 l1 rfl)
      have h3 := (do_variable_assignment_frame (J := True) (F := True) (P := Sys.is_mem)
        cmd.assignments false (do_builtin_io_redirects cmd l1 sh2).2.2 (fun _ h => h)).spares
        is_mem_spares
      have h4 := invoke_builtin_spares b cmd (do_builtin_io_redirects cmd l1 sh2).2.1
        (do_variable_assignment cmd.assignments false (do_builtin_io_redirects cmd l1 sh2).2.2).2
        hb
      have h5 := release_redirs_spares (do_builtin_io_redirects cmd l1 sh2).2.1
        (invoke_builtin b cmd (do_builtin_io_redirects cmd l1 sh2).2.1
          (do_variable_assignment cmd.assignments false
            (do_builtin_io_redirects cmd l1 sh2).2.2).2).2 hl2
      have h6 := (((h01.seq h2).seq h3).seq h4).seq h5
      have hst : ∀ (s : Sh) (v : Int), Spares s { s with status := v } :=
        fun s v => ⟨fun _ _ => rfl, [], by simp, by simp⟩
      dsimp only
      split_ifs <;> exact h6.seq (hst _ _)

theorem sys_pipe_spares (sh : Sh) (ho : StdOpen sh) :
    Spares sh (sys_pipe sh).2 ∧
      ∀ fds, (sys_pipe sh).1 = some fds → ¬ is_std fds.1 ∧ ¬ is_std fds.2 := by
  unfold sys_pipe
  dsimp only
  split
  · exact ⟨Spares.one .pipe (fun _ _ => rfl) rfl rfl, fun _ h => by cases h⟩
  · split
    · exact ⟨Spares.one .pipe (fun _ _ => rfl) rfl rfl, fun _ h => by cases h⟩
    · rename_i r hr
      have hr' : ¬ is_std r := lowest_free_not_std _ r ho hr
      have ho1 : StdOpen { (sh.call .pipe).fault.2 with
          fds := Function.update (sh.call .pipe).fault.2.fds r
            (some { name := "pipe", flags := O_RDONLY }) } := by
        intro k hk
        show (Function.update (sh.call .pipe).fault.2.fds r
          (some { name := "pipe", flags := O_RDONLY }) k).isSome = true
        rw [update_std hr' k hk]
        exact ho k hk
      split
      · exact ⟨Spares.one .pipe (fun _ _ => rfl) rfl rfl, fun _ h => by cases h⟩
      · rename_i wr hwr
        have hwr' : ¬ is_std wr := lowest_free_not_std _ wr ho1 hwr
        refine ⟨Spares.one .pipe ?_ rfl rfl, ?_⟩
        · intro k hk
          show Function.update (Function.update (sh.call .pipe).fault.2.fds r
            (some { name := "pipe", flags := O_RDONLY })) wr
            (some { name := "pipe", flags := O_WRONLY }) k = sh.fds k
          rw [update_std hwr' k hk, update_std hr' k hk]
          rfl
        · intro fds h
          cases h
          exact ⟨hr', hwr'⟩

theorem open_pipe_spares (ctrl_op : CtrlOp) (sh : Sh) (ho : StdOpen sh) :
    Spares sh (open_pipe ctrl_op sh).2 ∧
      ∀ fds, (open_pipe ctrl_op sh).1 = some fds → ¬ is_std fds.1 ∧ ¬ is_std fds.2 := by
  unfold open_pipe
  split_ifs
  · exact sys_pipe_spares sh ho
  · exact ⟨Spares.here _, fun fds h => by cases h; exact ⟨by decide, by decide⟩⟩

theorem sys_fork_spares (sh : Sh) : Spares sh (sys_fork sh).2 := by
  refine Spares.one .fork ?_ (sys_fork_calls sh) rfl
  unfold sys_fork Sh.call
  dsimp only
  split <;> exact fun _ _ => rfl

theorem fork_if_needed_spares (builtin : Option BuiltinFn) (ctrl_op : CtrlOp) (sh : Sh) :
    Spares sh (fork_if_needed builtin ctrl_op sh).2 := by
  unfold fork_if_needed
  split_ifs
  · exact sys_fork_spares sh
  · exact Spares.here _

theorem close_override_spares (override : Int) (sh : Sh) (hov : ¬ is_std override) :
    Spares sh (close_override override sh) := by
  unfold close_override
  split_ifs
  · exact sys_close_spares _ _ hov
  · exact Spares.here _

theorem start_pipeline_fds (ls : LoopState) (child_pid : Int) (sh : Sh) :
    ∀ ls', (start_pipeline ls child_pid sh).1 = some ls' →
      ls'.pipeline_fds = ls.pipeline_fds := by
  unfold start_pipeline
  dsimp only
  repeat' split
  all_goals (intro ls' h; cases h <;> rfl)

theorem await_or_detach_read_end (w : World) (cmd : Command) (ls : LoopState) (child_pid : Int)
    (sh : Sh) (h : ¬ is_std ls.pipeline_fds.1) :
    ¬ is_std (await_or_detach w cmd ls child_pid sh).read_end := by
  unfold await_or_detach
  dsimp only
  repeat' split
  all_goals first
    | exact h
    | exact (by decide : ¬ is_std (-1))

theorem run_builtin_read_end (b : BuiltinFn) (cmd : Command) (ls : LoopState) (si so : Int)
    (sh : Sh) (h : ¬ is_std ls.pipeline_fds.1) :
    ¬ is_std (run_builtin b cmd ls si so sh).read_end := by
  unfold run_builtin
  dsimp only
  repeat' split
  all_goals first
    | exact h
    | exact (by decide : ¬ is_std (-1))

theorem run_external_goes_on (cmd : Command) (si so : Int) (sh : Sh) :
    (run_external cmd si so sh).goes_on = false := by
  unfold run_external exec_command
  dsimp only
  repeat' split
  all_goals rfl

/-- The parent's part of an iteration spares the standard descriptors when the
pipe ends it closes are not among them. -/
theorem run_parent_spares (w : World) (cmd : Command) (ls : LoopState) (child_pid si so : Int)
    (sh : Sh) (hsi : ¬ is_std si) (hso : ¬ is_std so) (hls : ¬ is_std ls.pipeline_fds.1) :
    Spares sh (run_parent w cmd ls child_pid si so sh).sh ∧
      ¬ is_std (run_parent w cmd ls child_pid si so sh).read_end := by
  have hnot : ∀ c : Sys, (!c.hits_std) = true → c.hits_std = false := fun c h => by simpa using h
  have hwait : ∀ c : Sys, c.is_wait = true → (!c.hits_std) = true := fun c h => by
    simp [is_wait_spares c h]
  have h1 := close_override_spares so sh hso
  have h2 := close_override_spares si (close_override so sh) hsi
  have h3 := (sys_setpgid_frame (J := True) (F := True) (P := fun c => !c.hits_std) child_pid
    ls.pipeline_pgid (close_override si (close_override so sh)) rfl).spares hnot
  have h4 := (start_pipeline_frame (F := True) (P := fun c => !c.hits_std) ls child_pid
    (sys_setpgid child_pid ls.pipeline_pgid (close_override si (close_override so sh))).2
    (fun _ => rfl)).spares hnot
  have hfds := start_pipeline_fds ls child_pid
    (sys_setpgid child_pid ls.pipeline_pgid (close_override si (close_override so sh))).2
  have h123 := (h1.seq h2).seq h3
  have h5 : ∀ ls1 sh1, Spares sh1 (await_or_detach w cmd ls1 child_pid sh1).sh := fun ls1 sh1 =>
    (await_or_detach_frame (F := True) (P := fun c => !c.hits_std) w cmd ls1 child_pid sh1
      hwait).spares hnot
  unfold run_parent
  dsimp only
  have hm1 : ¬ is_std (-1) := by decide
  split
  · exact ⟨Spares.here _, hm1⟩
  · split
    · exact ⟨h123, hm1⟩
    · split
      · rename_i sh1 he
        rw [he] at h4
        exact ⟨h123.seq h4, hm1⟩
      · rename_i ls1 sh1 he
        rw [he] at h4 hfds
        have hls1 : ¬ is_std ls1.pipeline_fds.1 := by rw [hfds ls1 rfl]; exact hls
        exact ⟨(h123.seq h4).seq (h5 ls1 sh1),
          await_or_detach_read_end w cmd ls1 child_pid sh1 hls1⟩

/-- One iteration of `run_command_list` that stays in the shell spares the
standard descriptors, and the pipe end it hands to the next iteration is not
one of them. -/
theorem run_expanded_spares (w : World) (ls : LoopState) (cmd : Command) (sh : Sh)
    (hw : w.builtins_keep_fds) (ho : StdOpen sh) (hls : ¬ is_std ls.pipeline_fds.1)
    (hgo : (run_expanded w ls cmd sh).goes_on = true) :
    Spares sh (run_expanded w ls cmd sh).sh ∧ ¬ is_std (run_expanded w ls cmd sh).read_end := by
  obtain ⟨hp, hpf⟩ := open_pipe_spares cmd.ctrl_op sh ho
  unfold run_expanded at hgo ⊢
  dsimp only at hgo ⊢
  split at hgo
  · exact absurd hgo (by simp [Step.goes_on])
  · rename_i fds sh1 he
    rw [he] at hp hpf
    have hfds := hpf fds rfl
    have hf := fork_if_needed_spares (w.get_builtin cmd) cmd.ctrl_op sh1
    have hpf1 := hp.seq hf
    split at hgo
    · exact absurd hgo (by simp [Step.goes_on])
    · rename_i hne
      rw [if_neg hne]
      split at hgo
      · rename_i h0
        rw [if_pos h0]
        split at hgo
        · rename_i b hb
          exact ⟨hpf1.seq (run_builtin_spares b cmd _ _ _ _ (ho.of_spares hpf1) hls hfds.2
              (hw cmd b hb)),
            run_builtin_read_end b cmd _ _ _ _ hfds.1⟩
        · rw [run_external_goes_on] at hgo
          exact absurd hgo (by decide)
      · rename_i h0
        rw [if_neg h0]
        obtain ⟨h1, h2⟩ := run_parent_spares w cmd { ls with pipeline_fds := fds }
          (fork_if_needed (w.get_builtin cmd) cmd.ctrl_op sh1).1 ls.pipeline_fds.1 fds.2
          (fork_if_needed (w.get_builtin cmd) cmd.ctrl_op sh1).2 hls hfds.2 hfds.1
        exact ⟨hpf1.seq h1, h2⟩

/-- The loop of `run_command_list`, as long as it stays in the shell, spares
the standard descriptors. -/
theorem run_commands_spares (w : World) (hw : w.builtins_keep_fds) :
    ∀ (cl : List Command) (ls : LoopState) (sh : Sh), StdOpen sh →
      ¬ is_std ls.pipeline_fds.1 → (run_commands w cl ls sh).goes_on = true →
      Spares sh (run_commands w cl ls sh).sh := by
  intro cl
  induction cl with
  | nil => intro ls sh _ _ _; exact Spares.here _
  | cons cmd rest ih =>
    intro ls sh ho hls hgo
    unfold run_commands at hgo ⊢
    have hstep : (run_command w ls cmd sh).goes_on = true →
        Spares sh (run_command w ls cmd sh).sh ∧ ¬ is_std (run_command w ls cmd sh).read_end :=
      run_expanded_spares w ls (expand_command_words w cmd sh) sh hw ho hls
    generalize run_command w ls cmd sh = st at hgo hstep ⊢
    cases st with
    | next ls1 sh1 =>
      obtain ⟨h1, h2⟩ := hstep rfl
      exact h1.seq (ih ls1 sh1 (ho.of_spares h1) h2 hgo)
    | returned ret sh1 => exact (hstep rfl).1
    | exited code sh1 => exact absurd hgo (by simp [Step.goes_on])
    | execed argv sh1 => exact absurd hgo (by simp [Step.goes_on])
    | aborted sh1 => exact absurd hgo (by simp [Step.goes_on])

/-- C10: with descriptors 0, 1 and 2 open when `run_command_list` starts and
builtins that do not touch the descriptor table, whenever the loop has run
commands and is still in the shell (after every foreground builtin run
in-process: overlay construction, invocation and teardown), descriptors 0, 1
and 2 refer to the same open files as at the start, and no `close` or `dup2`
recorded since (those of `move_fd` included) has 0, 1 or 2 as its target. -/
theorem builtin_spares_std_descriptors (w : World) (cl : List Command) (sh : Sh)
    (hw : w.builtins_keep_fds)
    (hopen : (sh.fds 0).isSome = true ∧ (sh.fds 1).isSome = true ∧ (sh.fds 2).isSome = true)
    (hgo : (run_commands w cl LoopState.init sh).goes_on = true) :
    (run_commands w cl LoopState.init sh).sh.fds 0 = sh.fds 0 ∧
    (run_commands w cl LoopState.init sh).sh.fds 1 = sh.fds 1 ∧
    (run_commands w cl LoopState.init sh).sh.fds 2 = sh.fds 2 ∧
    (∀ c ∈ (run_commands w cl LoopState.init sh).sh.calls.drop sh.calls.length,
      (∀ fd, c = .close fd → fd ≠ 0 ∧ fd ≠ 1 ∧ fd ≠ 2) ∧
      (∀ src dst, c = .dup2 src dst → dst ≠ 0 ∧ dst ≠ 1 ∧ dst ≠ 2)) ∧
    (run_command_list w cl sh).sh = (run_commands w cl LoopState.init sh).sh := by
  have ho : StdOpen sh := by
    intro fd hfd
    rcases hfd with h | h | h <;> subst h
    · exact hopen.1
    · exact hopen.2.1
    · exact hopen.2.2
  obtain ⟨hf, l, hc, hl⟩ := run_commands_spares w hw cl LoopState.init sh ho (by decide) hgo
  refine ⟨hf 0 (Or.inl rfl), hf 1 (Or.inr (Or.inl rfl)), hf 2 (Or.inr (Or.inr rfl)), ?_, ?_⟩
  · rw [hc, List.drop_left]
    intro c hcl
    have hh := hl c hcl
    constructor
    · intro fd hfd
      subst hfd
      have : ¬ is_std fd := by simpa [Sys.hits_std] using hh
      exact ⟨fun h => this (Or.inl h), fun h => this (Or.inr (Or.inl h)),
        fun h => this (Or.inr (Or.inr h))⟩
    · intro src dst hd
      subst hd
      have : ¬ is_std dst := by simpa [Sys.hits_std] using hh
      exact ⟨fun h => this (Or.inl h), fun h => this (Or.inr (Or.inl h)),
        fun h => this (Or.inr (Or.inr h))⟩
  · unfold run_command_list
    split <;> simp_all [Step.sh]

theorem World.sample_keeps_fds : World.sample.builtins_keep_fds := by
  intro cmd b hb c l s
  unfold World.sample at hb
  dsimp only at hb
  split_ifs at hb
  cases hb
  rfl

/-- C10 at work: after `ls | cd /tmp 2>&1 > log 1>&- < in` the shell still has
its three standard descriptors on the terminal. -/
theorem builtin_spares_std_descriptors_witness :
    (run_commands World.sample [cmd_ls_pipe, cmd_cd_redirs] LoopState.init
        { Sh.boot with pids := [100] }).sh.fds 0 = some { name := "tty", flags := O_RDWR } ∧
    (run_commands World.sample [cmd_ls_pipe, cmd_cd_redirs] LoopState.init
        { Sh.boot with pids := [100] }).sh.fds 1 = some { name := "tty", flags := O_RDWR } ∧
    (run_commands World.sample [cmd_ls_pipe, cmd_cd_redirs] LoopState.init
        { Sh.boot with pids := [100] }).sh.fds 2 = some { name := "tty", flags := O_RDWR } :=
  have h := builtin_spares_std_descriptors World.sample [cmd_ls_pipe, cmd_cd_redirs]
    { Sh.boot with pids := [100] } World.sample_keeps_fds (by decide) (by decide)
  ⟨h.1, h.2.1, h.2.2.1⟩

/-! ### Variables: set, then get -/

/-- After `update_var`, `find_var` finds the changed node, when the change
keeps the name. -/
theorem find_update_var (name : String) (f : Var → Var) (hf : ∀ v, (f v).name = v.name)
    (l : List Var) :
    (update_var name f l).find? (fun v => v.name == name) =
      (l.find? (fun v => v.name == name)).map f := by
  induction l with
  | nil => rfl
  | cons v vs ih =>
    unfold update_var
    by_cases hn : v.name = name
    · rw [if_pos hn]
      have h1 : ((f v).name == name) = true := by rw [hf, hn]; exact beq_self_eq_true _
      have h2 : (v.name == name) = true := by rw [hn]; exact beq_self_eq_true _
      simp only [List.find?_cons, h1, h2, Option.map]
    · rw [if_neg hn]
      have h2 : (v.name == name) = false := by simpa using hn
      simp only [List.find?_cons, h2]
      exact ih

/-- The node `ensure_var` returns is the one `find_var` finds afterwards. -/
theorem ensure_var_found (name : String) (sh sh1 : Sh) (v : Var)
    (h : ensure_var name sh = (some v, sh1)) : find_var name sh1 = some v := by
  unfold ensure_var at h
  split at h
  · rename_i v0 hv0
    cases h
    exact hv0
  · unfold new_var at h
    dsimp only at h
    split_ifs at h <;> cases h
    unfold find_var
    simp only [List.find?_cons, beq_self_eq_true]

/-- An exported variable: after a `setenv` that returns 0, `vars_get` reads the
new value from the environment. -/
theorem vars_get_after_setenv (name value : String) (sh : Sh) (v : Var)
    (hvalid : is_valid_varname name = true) (hfind : find_var name sh = some v)
    (hexp : v.exported = true) (h : (sys_setenv name value sh).1 = 0) :
    vars_get name (sys_setenv name value sh).2 = some value := by
  unfold sys_setenv at h ⊢
  dsimp only at h ⊢
  split_ifs at h ⊢
  · exact absurd h (show ¬ ((-1 : Int) = 0) by decide)
  · unfold vars_get
    rw [hvalid]
    have hfind2 : find_var name
        { (sh.call (.setenv name value)).fault.2 with
          environ := (name, value) ::
            (sh.call (.setenv name value)).fault.2.environ.filter (fun e => e.1 != name) } =
        some v := hfind
    rw [if_neg (by decide), hfind2]
    dsimp only
    rw [hexp, if_neg (by decide)]
    unfold getenv
    simp only [List.find?_cons, beq_self_eq_true, Option.map]

/-- An unexported variable: after the value is stored in its node, `vars_get`
reads it from the list. -/
theorem vars_get_after_store (name value : String) (sh : Sh) (v : Var)
    (hvalid : is_valid_varname name = true) (hfind : find_var name sh = some v)
    (hexp : ¬ v.exported = true) :
    vars_get name { sh with
      var_list := update_var name (fun u => { u with value := some value }) sh.var_list } =
      some value := by
  unfold vars_get
  rw [hvalid, if_neg (by decide)]
  have hfind2 : find_var name { sh with
      var_list := update_var name (fun u => { u with value := some value }) sh.var_list } =
      some { v with value := some value } := by
    unfold find_var at hfind ⊢
    dsimp only
    rw [find_update_var name (fun u => { u with value := some value }) (fun _ => rfl), hfind]
    rfl
  rw [hfind2]
  dsimp only
  rw [if_pos (by simpa using hexp)]

/-- C14: for every state of the variable list and the environment, every name
and every value, when `vars_set(name, value)` returns 0 (which needs a valid
name), the `vars_get(name)` that follows returns `value`, for an exported
variable through the environment and for an unexported one through its node
of the list. -/
theorem vars_get_after_vars_set (name value : String) (sh : Sh)
    (h : (vars_set name value sh).1 = 0) :
    vars_get name (vars_set name value sh).2 = some value := by
  unfold vars_set at h ⊢
  by_cases hvalid : is_valid_varname name = true
  swap
  · rw [if_pos (by simpa using hvalid)] at h
    exact absurd h (show ¬ ((-1 : Int) = 0) by decide)
  rw [if_neg (by simp [hvalid])] at h ⊢
  have hens := ensure_var_found name sh
  generalize ensure_var name sh = e at h hens ⊢
  obtain ⟨o, sh1⟩ := e
  cases o with
  | none => exact absurd h (show ¬ ((-1 : Int) = 0) by decide)
  | some v =>
    have hfind : find_var name sh1 = some v := hens sh1 v rfl
    dsimp only at h ⊢
    by_cases hexp : v.exported = true
    · rw [if_pos hexp] at h ⊢
      exact vars_get_after_setenv name value sh1 v hvalid hfind hexp h
    · rw [if_neg hexp] at h ⊢
      by_cases hm : (sys_malloc sh1).1 = true
      · rw [if_pos hm]
        exact vars_get_after_store name value (sys_malloc sh1).2 v hvalid hfind hexp
      · rw [if_neg hm] at h
        exact absurd h (show ¬ ((-1 : Int) = 0) by decide)

/-- C14 at work: a new private variable `x`, and `HOME`, which the environment
already holds and which is therefore set there. -/
theorem vars_get_after_vars_set_witness :
    vars_get "x" (vars_set "x" "1" Sh.boot).2 = some "1" ∧
    vars_get "HOME" (vars_set "HOME" "/tmp" Sh.with_home).2 = some "/tmp" ∧
    getenv "HOME" (vars_set "HOME" "/tmp" Sh.with_home).2 = some "/tmp" ∧
    getenv "x" (vars_set "x" "1" Sh.boot).2 = none :=
  ⟨vars_get_after_vars_set "x" "1" Sh.boot (by decide),
   vars_get_after_vars_set "HOME" "/tmp" Sh.with_home (by decide), by decide, by decide⟩

/-! ### The overlay: closing and aliasing -/

/-- C11 fails on the code for `cd /tmp > log 1>&-`: the list holds the entry
`(1, 3)` when `1>&-` is applied; the code closes descriptor 3 but then stores
`-1` in the entry's `pseudofd`, not in its `realfd`.  Afterwards the list is
`[(-1, 3)]`: no entry has pseudofd 1, none has realfd `-1`, and the teardown
closes descriptor 3 a second time. -/
theorem overlay_close_clears_pseudofd :
    (overlay_redirect { io_op := OP_GREATAND, io_number := 1, filename := "-" }
        [{ pseudofd := 1, realfd := 3 }] Sh.with_fd3).redir_list =
      [{ pseudofd := -1, realfd := 3 }] ∧
    (overlay_redirect { io_op := OP_GREATAND, io_number := 1, filename := "-" }
        [{ pseudofd := 1, realfd := 3 }] Sh.with_fd3).sh.calls = [.close 3] ∧
    (do_builtin_io_redirects cmd_cd_close [] Sh.boot).1 = 0 ∧
    (do_builtin_io_redirects cmd_cd_close [] Sh.boot).2.1 = [{ pseudofd := -1, realfd := 3 }] ∧
    find_rec 1 (do_builtin_io_redirects cmd_cd_close [] Sh.boot).2.1 = none ∧
    (run_command_list World.sample [cmd_cd_close] Sh.boot).sh.calls =
      [.open_ "log" (O_WRONLY ||| O_CREAT ||| O_EXCL), .malloc, .close 3, .builtin,
       .close 3] := by
  decide

/-- C12 fails on the code for `cd /tmp 4> a 1> b 2>&1`: when `2>&1` is applied
the list is `[(1, 4), (4, 3)]`.  The source 1 is resolved to the realfd 4 of
pseudofd 1, and the loop, which goes on, resolves 4 again through the entry
whose pseudofd is 4: the descriptor duplicated for pseudofd 2 is 3, open on
`a`, not 4, open on `b`. -/
theorem overlay_alias_resolved_twice :
    resolve_src [{ pseudofd := 1, realfd := 4 }, { pseudofd := 4, realfd := 3 }] 1 = some 3 ∧
    (do_builtin_io_redirects cmd_cd_alias [] Sh.boot).1 = 0 ∧
    (do_builtin_io_redirects cmd_cd_alias [] Sh.boot).2.1 =
      [{ pseudofd := 2, realfd := 5 }, { pseudofd := 1, realfd := 4 },
       { pseudofd := 4, realfd := 3 }] ∧
    (do_builtin_io_redirects cmd_cd_alias [] Sh.boot).2.2.calls =
      [.open_ "a" (O_WRONLY ||| O_CREAT ||| O_EXCL), .malloc,
       .open_ "b" (O_WRONLY ||| O_CREAT ||| O_EXCL), .malloc, .malloc, .dup 3] ∧
    (do_builtin_io_redirects cmd_cd_alias [] Sh.boot).2.2.fds 4 =
      some { name := "b", flags := O_WRONLY ||| O_CREAT ||| O_EXCL } ∧
    (do_builtin_io_redirects cmd_cd_alias [] Sh.boot).2.2.fds 5 =
      some { name := "a", flags := O_WRONLY ||| O_CREAT ||| O_EXCL } := by
  decide

/-- C13 fails on the code for a table of two jobs whose first one has ended:
job 1 (group 10) is reaped at index 0 and removed, job 2 (group 20) moves to
index 0, the index goes on to 1 and the loop ends.  The sweep returns 0 with
group 20 never polled and job 2 still in the table. -/
theorem wait_on_bg_jobs_skips_moved_job :
    Sh.two_jobs.jobs = [{ jid := 1, pgid := 10 }, { jid := 2, pgid := 20 }] ∧
    (wait_on_bg_jobs poll_group10_killed Sh.two_jobs).map
        (fun r => (r.1, r.2.calls, r.2.jobs)) =
      some (0, [.waitpid (-10) POLL_FLAGS, .waitpid (-10) POLL_FLAGS, .jobs_remove_gid 10],
        [{ jid := 2, pgid := 20 }]) := by
  decide

end MiniShell
